import Mathlib

set_option linter.unusedVariables false
set_option maxHeartbeats 2000000

namespace Mineswept

/-- Cells of the minefield grid, mirroring `type cell` in src/game/game.go
(lines 380-385).  Go zero values are the field defaults.  `adjacentMines` is a
Go int that starts at 0 and is only ever incremented, so it is a natural
number here. -/
structure cell where
  isFlagged : Bool := false
  isMined : Bool := false
  isRevealed : Bool := false
  adjacentMines : Nat := 0
deriving Repr, DecidableEq

/-- `type coordinate [2]int` (game.go line 48): first component x, second y.
Integers, because `cellNameToCoordinate` can produce a -1 row (e.g. for "A0"). -/
abbrev coordinate := Int × Int

abbrev Grid := List (List cell)

/-- `type CellName string` (game.go line 46). -/
abbrev CellName := String

/-- Update of one list element, mirroring a Go slice write `l[i] = f(l[i])`.
Out of range it is a no-op; every in-range requirement of the source is
bounds-checked before the call, exactly as in the Go code. -/
def modifyAt {α : Type} : List α → Nat → (α → α) → List α
  | [], _, _ => []
  | a :: as, 0, f => f a :: as
  | a :: as, i+1, f => a :: modifyAt as i f

/-- The value the model returns for a grid access outside the grid.  The Go
code never performs such an access (each one is guarded by a bounds check), so
this sentinel only keeps the model total; it is marked revealed, unmined and
non-zero-adjacency so it can never enter a cascade. -/
def oobCell : cell := { isRevealed := true, adjacentMines := 1 }

/-- Read `g.grid[c[1]][c[0]]`. -/
def cellAt (grid : Grid) (c : coordinate) : cell :=
  if 0 ≤ c.1 ∧ 0 ≤ c.2 then (grid.getD c.2.toNat []).getD c.1.toNat oobCell else oobCell

def markRevealed (c : cell) : cell := { c with isRevealed := true }

/-- Write `isRevealed = true` into `grid[c[1]][c[0]]` (the body of
onCellRevealed, game.go lines 145-146). -/
def revealGridCell (grid : Grid) (c : coordinate) : Grid :=
  if 0 ≤ c.1 ∧ 0 ≤ c.2 then
    modifyAt grid c.2.toNat (fun row => modifyAt row c.1.toNat markRevealed)
  else grid

/-- `len(g.grid[0])`. -/
def gridWidth (grid : Grid) : Nat := (grid.headD []).length

/-- `len(g.grid)`. -/
def gridHeight (grid : Grid) : Nat := grid.length

def rowLens (grid : Grid) : List Nat := grid.map List.length

def totalCount (grid : Grid) : Nat := (rowLens grid).sum

def rowRevealed (row : List cell) : Nat := (row.filter (fun c => c.isRevealed)).length

def rowUnrevealed (row : List cell) : Nat := (row.filter (fun c => !c.isRevealed)).length

def rowHidden (row : List cell) : Nat :=
  (row.filter (fun c => !c.isRevealed && !c.isFlagged)).length

def revealedCount (grid : Grid) : Nat := (grid.map rowRevealed).sum

def countUnrevealed (grid : Grid) : Nat := (grid.map rowUnrevealed).sum

/-- Number of cells with `!isRevealed && !isFlagged`, the number of increments
the loop of onGameLost performs (game.go lines 154-162). -/
def countHidden (grid : Grid) : Nat := (grid.map rowHidden).sum

/-- The event union of game.go (gameStartedEvent, cellRevealedEvent,
gameWonEvent, gameLostEvent, lines 391-432), each carrying the BaseEvent
envelope fields AggregateId and Version.  The `At` timestamp is omitted: no
claim mentions it and wall-clock time is not modelled.  The payload-free
placeholder cellFlaggedEvent is never constructed or applied and is omitted. -/
inductive event where
  | gameStartedEvent (aggregateId : String) (version : Nat) (grid : Grid)
  | cellRevealedEvent (aggregateId : String) (version : Nat)
      (interactionCellName : CellName) (cellCoord : coordinate)
  | gameWonEvent (aggregateId : String) (version : Nat)
  | gameLostEvent (aggregateId : String) (version : Nat)
deriving Repr, DecidableEq

/-- `type game struct` (game.go lines 33-44).  The createAt/updatedAt
timestamps are omitted (never read by any code a claim covers). -/
structure game where
  id : String := ""
  version : Nat := 0
  name : String := ""
  grid : Grid := []
  cellCount : Nat := 0
  revealedOrFlaggedCellCount : Nat := 0
  isEnded : Bool := false
  events : List event := []
deriving Repr, DecidableEq

instance : Inhabited game := ⟨{}⟩

/-- onGameStarted (game.go lines 85-91): sets id, version, grid and
cellCount = len(grid) * len(grid[0]). -/
def onGameStarted (g : game) (aggregateId : String) (version : Nat) (grid : Grid) : game :=
  { g with id := aggregateId, version := version, grid := grid,
           cellCount := gridHeight grid * gridWidth grid }

/-- onCellRevealed (game.go lines 144-148): marks the cell revealed and
increments revealedOrFlaggedCellCount.  Note that it does NOT touch
g.version. -/
def onCellRevealed (g : game) (cellCoord : coordinate) : game :=
  { g with grid := revealGridCell g.grid cellCoord,
           revealedOrFlaggedCellCount := g.revealedOrFlaggedCellCount + 1 }

/-- onGameLost (game.go lines 150-163): sets isEnded, increments the counter
once per cell that was neither revealed nor flagged, and reveals every cell.
(The Go loop reads each cell before writing it and touches each cell once, so
the total increment is countHidden of the original grid.) -/
def onGameLost (g : game) : game :=
  { g with isEnded := true,
           revealedOrFlaggedCellCount := g.revealedOrFlaggedCellCount + countHidden g.grid,
           grid := g.grid.map (fun row => row.map markRevealed) }

/-- onGameWon (game.go lines 165-168) marks the game ended.  It exists in the
source but is DEAD CODE: `gameWonEvent.applyTo` (lines 422-424) has an empty
body and never calls it, so applying a won event changes nothing (see
`event.applyTo` below). -/
def onGameWon (g : game) : game := { g with isEnded := true }

/-- The applyTo dispatch of the four event types (game.go lines 402-432).
Faithfully to the source, the gameWonEvent case is the identity: its Go body
is empty and never invokes onGameWon. -/
def event.applyTo (e : event) (g : game) : game :=
  match e with
  | .gameStartedEvent id v grid => onGameStarted g id v grid
  | .cellRevealedEvent _ _ _ c => onCellRevealed g c
  | .gameWonEvent _ _ => g
  | .gameLostEvent _ _ => onGameLost g

/-- The character class `[A-z]` of the regexp `([A-z]+)([0-9]+)` (game.go
line 15): ASCII codes 65..122, which includes the six punctuation characters
between Z and a. -/
def isClassAz (ch : Char) : Bool := 65 ≤ ch.toNat && ch.toNat ≤ 122

def isDigitCh (ch : Char) : Bool := 48 ≤ ch.toNat && ch.toNat ≤ 57

/-- Model of `validCellName.FindStringSubmatch`: the leftmost match of the
UNANCHORED pattern `([A-z]+)([0-9]+)` inside the string, returning the two
capture groups.  Because the two character classes are disjoint, the leftmost
match starts at the first position whose maximal `[A-z]` run is immediately
followed by a digit; both groups are then matched greedily. -/
def findCellNameMatch : List Char → Option (List Char × List Char)
  | [] => none
  | ch :: rest =>
    if isClassAz ch then
      let letters := (ch :: rest).takeWhile isClassAz
      let afterLetters := (ch :: rest).dropWhile isClassAz
      let digits := afterLetters.takeWhile isDigitCh
      if digits.isEmpty then findCellNameMatch rest else some (letters, digits)
    else findCellNameMatch rest

/-- `strings.ToUpper` on one ASCII character (the matched characters are all
ASCII; Go leaves non-letters such as the underscore unchanged). -/
def goUpperCode (ch : Char) : Nat :=
  if 97 ≤ ch.toNat ∧ ch.toNat ≤ 122 then ch.toNat - 32 else ch.toNat

/-- The accumulation loop of columnKeyToInt (game.go lines 459-464):
x += (int(char) - 64) * 26^place.  math.Pow is exact on these small values. -/
def columnKeyVal : List Char → Nat
  | [] => 0
  | ch :: rest => (goUpperCode ch - 64) * 26 ^ rest.length + columnKeyVal rest

/-- columnKeyToInt (game.go lines 455-468): uppercase, accumulate, subtract 1
so that A = 0. -/
def columnKeyToInt (columnKey : List Char) : Int := (columnKeyVal columnKey : Int) - 1

/-- strconv.Atoi on the digit capture group (always a nonempty digit string).
64-bit overflow is not modelled. -/
def atoiDigits (ds : List Char) : Nat := ds.foldl (fun acc ch => acc * 10 + (ch.toNat - 48)) 0

/-- cellNameToCoordinate (game.go lines 434-452). -/
def cellNameToCoordinate (cellName : CellName) : Except String coordinate :=
  match findCellNameMatch cellName.toList with
  | none => .error "invalid cell name"
  | some (letters, digits) => .ok (columnKeyToInt letters, (atoiDigits digits : Int) - 1)

/-- containsCoordinate (game.go lines 253-258). -/
def containsCoordinate (g : game) (c : coordinate) : Bool :=
  decide (0 ≤ c.1) && decide (c.1 < (gridWidth g.grid : Int)) &&
  decide (0 ≤ c.2) && decide (c.2 < (gridHeight g.grid : Int))

/-- The xs (respectively ys) list built by getNeighbors: the axis value
itself, value-1 when positive, value+1 when below bound-1, in the source's
append order. -/
def neighborAxis (v : Int) (bound : Nat) : List Int :=
  [v] ++ (if v > 0 then [v - 1] else []) ++
    (if v < (bound : Int) - 1 then [v + 1] else [])

/-- getNeighbors (game.go lines 350-378), preserving the construction and
order of the source: xs = [x, x-1?, x+1?], ys likewise, nested loops with the
input coordinate filtered out. -/
def getNeighbors (coord : coordinate) (width height : Nat) : List coordinate :=
  (neighborAxis coord.1 width).flatMap (fun x =>
    (neighborAxis coord.2 height).filterMap (fun y =>
      if (x, y) ≠ coord then some (x, y) else none))

/-- loseGameIfMined (game.go lines 170-187). -/
def loseGameIfMined (g : game) (coord : coordinate) : game × Option event :=
  let target := cellAt g.grid coord
  if !target.isMined || !target.isRevealed then (g, none)
  else
    let e := event.gameLostEvent g.id (g.version + 1)
    (e.applyTo g, some e)

/-- winGameIfLastCell (game.go lines 189-204).  The constructed gameWonEvent
is applied (a no-op, see event.applyTo) and returned. -/
def winGameIfLastCell (g : game) (coord : coordinate) : game × Option event :=
  if g.cellCount ≠ g.revealedOrFlaggedCellCount then (g, none)
  else
    let e := event.gameWonEvent g.id (g.version + 1)
    (e.applyTo g, some e)

/-- Fuel passed to the queue loop: strictly more than
queue length + 10 * (number of unrevealed cells), which strictly decreases at
every iteration (each iteration pops one queue entry and pushes at most nine
only when it also reveals a previously unrevealed cell), so the fuel is never
exhausted; see the loop lemmas below. -/
def loopFuelBound (g : game) (queue : List coordinate) : Nat :=
  queue.length + 10 * countUnrevealed g.grid + 1

/-- The queue loop of revealNeighborsIfNoAdjacentMines (game.go lines
219-240): pop a coordinate; if its cell is unrevealed and unmined, apply and
collect a cellRevealedEvent carrying the original interaction cell name, and
if that cell has zero adjacent mines push its neighbors; otherwise skip.  The
fuel argument only makes the recursion structural; started at loopFuelBound it
never reaches 0. -/
def revealLoop (interactionCellName : CellName) :
    Nat → game → List coordinate → List event → game × List event
  | 0, g, _, events => (g, events)
  | _+1, g, [], events => (g, events)
  | fuel+1, g, c :: rest, events =>
    let neighbor := cellAt g.grid c
    if !neighbor.isRevealed && !neighbor.isMined then
      let e := event.cellRevealedEvent g.id (g.version + 1) interactionCellName c
      let g2 := e.applyTo g
      let queue2 := rest ++ (if neighbor.adjacentMines == 0 then
        getNeighbors c (gridWidth g.grid) (gridHeight g.grid) else [])
      revealLoop interactionCellName fuel g2 queue2 (events ++ [e])
    else
      revealLoop interactionCellName fuel g rest events

/-- revealNeighborsIfNoAdjacentMines (game.go lines 206-243).  Of the
originalEvent parameter only the InteractionCellName field is read, so the
model takes the name directly. -/
def revealNeighborsIfNoAdjacentMines (g : game) (coord : coordinate)
    (interactionCellName : CellName) : game × List event :=
  if (cellAt g.grid coord).adjacentMines > 0 then (g, [])
  else
    let queue := getNeighbors coord (gridWidth g.grid) (gridHeight g.grid)
    revealLoop interactionCellName (loopFuelBound g queue) g queue []

/-- RevealCell (game.go lines 94-142).  Validation first (name decoding,
bounds, already revealed); then the initial cellRevealedEvent is applied but —
exactly as in the source — never appended to g.events; then the loss check
(whose event is appended, returning immediately), the cascade (whose events
are appended) and the win check (whose event is appended). -/
def RevealCell (g : game) (cellName : CellName) : Except String game :=
  match cellNameToCoordinate cellName with
  | .error msg => .error msg
  | .ok coord =>
    if !containsCoordinate g coord then .error "invalid cell"
    else if (cellAt g.grid coord).isRevealed then .error "cell already revealed"
    else
      let revealed := event.cellRevealedEvent g.id (g.version + 1) cellName coord
      let g1 := revealed.applyTo g
      match loseGameIfMined g1 coord with
      | (g2, some lost) => .ok { g2 with events := g2.events ++ [lost] }
      | (g2, none) =>
        match revealNeighborsIfNoAdjacentMines g2 coord cellName with
        | (g3, revealedNeighbors) =>
          let g4 := { g3 with events := g3.events ++ revealedNeighbors }
          match winGameIfLastCell g4 coord with
          | (g5, some won) => .ok { g5 with events := g5.events ++ [won] }
          | (g5, none) => .ok g5

/-- FlagCell (game.go line 245) has an empty body. -/
def FlagCell (g : game) : game := g

/-- UndoMove (game.go line 247) has an empty body. -/
def UndoMove (g : game) : game := g

/-- IsComplete (game.go lines 249-251) unconditionally returns false. -/
def IsComplete (g : game) : Bool := false

/-- NewGame (game.go lines 55-83) after grid generation: the generated grid
and the fresh UUID are injected as parameters (grid generation is modelled by
generateGrid below; the UUID provider is an external collaborator).  A
gameStartedEvent with Version 1 is applied to the zero-valued game and
appended to the log. -/
def NewGame (grid : Grid) (id : String) : game :=
  let e := event.gameStartedEvent id 1 grid
  let g := e.applyTo {}
  { g with events := g.events ++ [e] }

/-- Replaying an event log from the empty (zero-valued) aggregate, applying
each event in order. -/
def replayEvents (events : List event) : game :=
  events.foldl (fun g e => e.applyTo g) {}

/-- Result of generateGrid: a returned validation error, an index-out-of-range
panic, or a grid. -/
inductive GenResult where
  | invalid (msg : String)
  | outOfRange
  | ok (grid : Grid)
deriving Repr, DecidableEq

/-- initEmptyMatrix (game.go lines 315-322): height rows of width zero-valued
cells. -/
def initEmptyMatrix (width height : Nat) : Grid :=
  List.replicate height (List.replicate width {})

/-- A Go write `grid[i][j] = f(grid[i][j])` that panics (none) out of range. -/
def setCellOpt (grid : Grid) (i j : Nat) (f : cell → cell) : Option Grid :=
  if i < grid.length ∧ j < (grid.getD i []).length then
    some (modifyAt grid i (fun row => modifyAt row j f))
  else none

def markMined (c : cell) : cell := { c with isMined := true }

def incAdjacent (c : cell) : cell := { c with adjacentMines := c.adjacentMines + 1 }

def incIf (cond : Bool) (i j : Nat) (grid : Grid) : Option Grid :=
  if cond then setCellOpt grid i j incAdjacent else some grid

/-- One iteration of the mine placement loop of generateGrid (game.go lines
282-310), with the source's exact index expressions and guards: the matrix has
height rows of width cells, yet it is indexed `matrix[c[0]][c[1]]` (row index
x, column index y) and the guards compare c[0] against width and c[1] against
height, so a write outside the matrix — possible whenever width ≠ height — is
an index-out-of-range panic (none). -/
def applyMine (width height : Nat) (grid : Grid) (c : Nat × Nat) : Option Grid :=
  (setCellOpt grid c.1 c.2 markMined).bind fun g1 =>
  (incIf (decide (0 < c.1) && decide (0 < c.2)) (c.1 - 1) (c.2 - 1) g1).bind fun g2 =>
  (incIf (decide (0 < c.1)) (c.1 - 1) c.2 g2).bind fun g3 =>
  (incIf (decide (0 < c.1) && decide (c.2 < height - 1)) (c.1 - 1) (c.2 + 1) g3).bind fun g4 =>
  (incIf (decide (0 < c.2)) c.1 (c.2 - 1) g4).bind fun g5 =>
  (incIf (decide (c.2 < height - 1)) c.1 (c.2 + 1) g5).bind fun g6 =>
  (incIf (decide (c.1 < width - 1) && decide (0 < c.2)) (c.1 + 1) (c.2 - 1) g6).bind fun g7 =>
  (incIf (decide (c.1 < width - 1)) (c.1 + 1) c.2 g7).bind fun g8 =>
  incIf (decide (c.1 < width - 1) && decide (c.2 < height - 1)) (c.1 + 1) (c.2 + 1) g8

/-- generateGrid (game.go lines 260-313), with the randomly chosen mine
coordinates injected as a parameter (see chooseMinePlacementsCan).  Dimensions
and mine count are validated in the source's order; then the mines are placed
one by one by applyMine. -/
def generateGrid (width height mineCount : Nat) (mineCoords : List (Nat × Nat)) : GenResult :=
  if width < 2 ∨ height < 2 then .invalid "Must be at least 2x2."
  else if width > 40 ∨ height > 40 then .invalid "Must be at most 40x40."
  else if mineCount < 1 then .invalid "Place at least 1."
  else if mineCount > width * height then .invalid "The mine count cannot exceed the number of cells."
  else
    match mineCoords.foldlM (applyMine width height) (initEmptyMatrix width height) with
    | none => .outOfRange
    | some grid => .ok grid

/-- The possible outputs of chooseMinePlacements (game.go lines 324-346) for a
given random stream: mineCount distinct coordinates with x < width and
y < height (rand.Float32()*width truncates into [0,width)), in the arbitrary
iteration order of the Go map.  Quantifying over lists satisfying this
predicate quantifies over every random stream and map order. -/
def chooseMinePlacementsCan (width height mineCount : Nat) (ps : List (Nat × Nat)) : Prop :=
  ps.length = mineCount ∧ ps.Nodup ∧ ∀ p ∈ ps, p.1 < width ∧ p.2 < height

instance (width height mineCount : Nat) (ps : List (Nat × Nat)) :
    Decidable (chooseMinePlacementsCan width height mineCount ps) := by
  unfold chooseMinePlacementsCan; infer_instance

/-- The games reachable through the public surface: NewGame on any grid that
generateGrid can actually return (for some valid random placement), followed
by any sequence of successful RevealCell calls. -/
inductive Reachable : game → Prop where
  | start (width height mineCount : Nat) (ps : List (Nat × Nat)) (id : String) (grid : Grid) :
      chooseMinePlacementsCan width height mineCount ps →
      generateGrid width height mineCount ps = .ok grid →
      Reachable (NewGame grid id)
  | step (g : game) (name : CellName) (g2 : game) :
      Reachable g → RevealCell g name = .ok g2 → Reachable g2

/-- Modelled from the spec: the documented cell-name wire format
`^[A-Za-z]+[0-9]+$` (spec sections 4.3 and 6) — a whole-string match of one or
more ASCII letters followed by one or more digits.  This is the spec-side
definition that claim C5 compares against the source's cellNameToCoordinate. -/
def isAsciiLetter (ch : Char) : Bool :=
  (65 ≤ ch.toNat && ch.toNat ≤ 90) || (97 ≤ ch.toNat && ch.toNat ≤ 122)

/-- Modelled from the spec: whether a string matches `^[A-Za-z]+[0-9]+$`
(equivalently: a nonempty ASCII-letter prefix followed by a nonempty
all-digit remainder). -/
def specCellNameMatch (s : String) : Bool :=
  let cs := s.toList
  let letters := cs.takeWhile isAsciiLetter
  let rest := cs.dropWhile isAsciiLetter
  !letters.isEmpty && !rest.isEmpty && rest.all isDigitCh

/-- Whether an event is one of the two terminal events. -/
def isTerminalEvent : event → Bool
  | .gameWonEvent _ _ => true
  | .gameLostEvent _ _ => true
  | _ => false

/-- A gameWonEvent or gameLostEvent has been appended to the log (every
appended terminal event was also applied, see RevealCell). -/
def HasTerminalEvent (g : game) : Prop := ∃ e ∈ g.events, isTerminalEvent e

instance (g : game) : Decidable (HasTerminalEvent g) := by
  unfold HasTerminalEvent; infer_instance

/-- The coordinates the claimed cascade region consists of: those reachable
from `start` by repeatedly stepping from a zero-adjacency cell to one of its
in-grid neighbors.  When `start` is a zero cell this is exactly the connected
zero-adjacency region containing `start` together with its bordering cells. -/
inductive ZeroPath (grid : Grid) (start : coordinate) : coordinate → Prop where
  | refl : ZeroPath grid start start
  | step {a b : coordinate} : ZeroPath grid start a →
      (cellAt grid a).adjacentMines = 0 →
      b ∈ getNeighbors a (gridWidth grid) (gridHeight grid) →
      ZeroPath grid start b

/-- Every already-revealed zero-adjacency cell has each of its in-grid
neighbors revealed or mined.  Every state reachable by live play satisfies
this (revealing a zero cell cascades over all its unmined neighbors at once);
claim C7 fails on artificial states that violate it. -/
def CascadeClosed (grid : Grid) : Prop :=
  ∀ p : coordinate, (cellAt grid p).adjacentMines = 0 →
    (cellAt grid p).isRevealed = true →
    ∀ b ∈ getNeighbors p (gridWidth grid) (gridHeight grid),
      (cellAt grid b).isRevealed = true ∨ (cellAt grid b).isMined = true

/-- No cell of the grid is flagged. -/
def NoFlags (grid : Grid) : Prop := ∀ row ∈ grid, ∀ c ∈ row, c.isFlagged = false

instance (grid : Grid) : Decidable (NoFlags grid) := by
  unfold NoFlags; infer_instance

/-- Every cell of the grid is revealed. -/
def AllRevealed (grid : Grid) : Prop := ∀ row ∈ grid, ∀ c ∈ row, c.isRevealed = true

instance (grid : Grid) : Decidable (AllRevealed grid) := by
  unfold AllRevealed; infer_instance

/-- Every row has the length of row 0. -/
def Rect (grid : Grid) : Prop := ∀ row ∈ grid, row.length = gridWidth grid

instance (grid : Grid) : Decidable (Rect grid) := by
  unfold Rect; infer_instance

/-- Zero-adjacency cells have no mined in-grid neighbor.  This is the half of
the adjacency-count invariant the cascade relies on; every grid generateGrid
returns satisfies it, and reveals never change it. -/
def ZeroConsistent (grid : Grid) : Prop :=
  ∀ p : coordinate, (cellAt grid p).adjacentMines = 0 →
    ∀ b ∈ getNeighbors p (gridWidth grid) (gridHeight grid),
      (cellAt grid b).isMined = false

/-- The pieces of state a run of the cascade loop can change, and how: it
only reveals previously unrevealed cells (incrementing the counter in step),
leaving every other field, the grid shape and every other cell attribute
unchanged. -/
structure LoopStep (g gf : game) : Prop where
  id_eq : gf.id = g.id
  version_eq : gf.version = g.version
  name_eq : gf.name = g.name
  ended_eq : gf.isEnded = g.isEnded
  cellCount_eq : gf.cellCount = g.cellCount
  events_eq : gf.events = g.events
  shape : rowLens gf.grid = rowLens g.grid
  attrs : ∀ p : coordinate, (cellAt gf.grid p).isMined = (cellAt g.grid p).isMined ∧
      (cellAt gf.grid p).adjacentMines = (cellAt g.grid p).adjacentMines ∧
      (cellAt gf.grid p).isFlagged = (cellAt g.grid p).isFlagged
  mono : ∀ p : coordinate, (cellAt g.grid p).isRevealed = true →
      (cellAt gf.grid p).isRevealed = true
  count : gf.revealedOrFlaggedCellCount + revealedCount g.grid =
      g.revealedOrFlaggedCellCount + revealedCount gf.grid

/-- The state after the cascade of a safe reveal at c: the cascade's target
game with the cascade's events appended to the log. -/
def cascadeResult (g : game) (c : coordinate) (name : CellName) : game :=
  let gc := revealNeighborsIfNoAdjacentMines (onCellRevealed g c) c name
  { gc.1 with events := gc.1.events ++ gc.2 }

/-- Every cell of the grid satisfies P. -/
def AllCellsP (P : cell → Prop) (grid : Grid) : Prop := ∀ row ∈ grid, ∀ c ∈ row, P c

/-- The state invariants every reachable game satisfies (established at
NewGame, preserved by every successful RevealCell). -/
structure Inv (g : game) : Prop where
  rect : Rect g.grid
  cellCount_eq : g.cellCount = totalCount g.grid
  noFlags : NoFlags g.grid
  count_eq : g.revealedOrFlaggedCellCount = revealedCount g.grid
  terminal_all : HasTerminalEvent g → AllRevealed g.grid

/-- The invariant of the cascade loop, relative to the pre-reveal grid G and
the manually revealed start cell: the grid keeps G's shape and non-reveal
attributes, reveals only grow, every revealed cell was revealed in G or lies
on a zero-path from start, every queued coordinate lies on a zero-path, and
every revealed zero cell has each neighbor revealed, mined, or queued. -/
structure CascadeInv (G : Grid) (start : coordinate) (g : game)
    (queue : List coordinate) : Prop where
  shapeG : rowLens g.grid = rowLens G
  attrsG : ∀ p : coordinate, (cellAt g.grid p).isMined = (cellAt G p).isMined ∧
      (cellAt g.grid p).adjacentMines = (cellAt G p).adjacentMines
  monoG : ∀ p : coordinate, (cellAt G p).isRevealed = true →
      (cellAt g.grid p).isRevealed = true
  startRev : (cellAt g.grid start).isRevealed = true
  sound : ∀ p : coordinate, (cellAt g.grid p).isRevealed = true →
      (cellAt G p).isRevealed = true ∨ ZeroPath G start p
  queueZP : ∀ q ∈ queue, ZeroPath G start q
  frontier : ∀ p : coordinate, (cellAt g.grid p).adjacentMines = 0 →
      (cellAt g.grid p).isRevealed = true →
      ∀ b ∈ getNeighbors p (gridWidth g.grid) (gridHeight g.grid),
        (cellAt g.grid b).isRevealed = true ∨ (cellAt g.grid b).isMined = true ∨ b ∈ queue

/-- A 5×5 state with no mines, zero adjacency everywhere, and the middle
column (x = 2) already revealed — a wall of revealed cells splitting the
zero region.  Such a state cannot arise from live play (live play would have
cascaded past the wall), which is exactly what the original claim C7
overlooks. -/
def badRow : List cell := [{}, {}, { isRevealed := true }, {}, {}]

def badGrid : Grid := [badRow, badRow, badRow, badRow, badRow]

def badGame : game :=
  { id := "bad", version := 1, name := "", grid := badGrid, cellCount := 25,
    revealedOrFlaggedCellCount := 5, isEnded := false,
    events := [event.gameStartedEvent "bad" 1 badGrid] }

/-- badGame after revealing A1 = (0,0). -/
def badAfter : game := (RevealCell badGame "A1").toOption.getD default

/-- The grid generateGrid 5 5 1 produces when the random placement is (0,0). -/
def grid5 : Grid :=
  [[{ isMined := true }, { adjacentMines := 1 }, {}, {}, {}],
   [{ adjacentMines := 1 }, { adjacentMines := 1 }, {}, {}, {}],
   [{}, {}, {}, {}, {}],
   [{}, {}, {}, {}, {}],
   [{}, {}, {}, {}, {}]]

/-- A freshly created 5×5 game with one mine at A1 and a large zero region. -/
def demo5 : game := NewGame grid5 "00000000-0000-4000-8000-000000000001"

/-- The grid generateGrid 2 2 1 produces when the random placement is (0,0):
a mine in the top-left corner, adjacency 1 everywhere else (see
demoGrid_generated below). -/
def demoGrid : Grid :=
  [[{ isMined := true }, { adjacentMines := 1 }],
   [{ adjacentMines := 1 }, { adjacentMines := 1 }]]

/-- A freshly created 2×2 game with one mine at A1. -/
def demoGame : game := NewGame demoGrid "00000000-0000-4000-8000-000000000000"

/-- demoGame after revealing the safe numbered cell B1 = (1,0). -/
def demoRevealB1 : game := (RevealCell demoGame "B1").toOption.getD default

/-- demoGame after revealing the mined cell A1 = (0,0): a lost game. -/
def lostGame : game := (RevealCell demoGame "A1").toOption.getD default

/-- A 2×2 state one non-mined cell away from the win condition
(revealedOrFlaggedCellCount = 3 of cellCount 4, only B2 = (1,1) unrevealed):
revealing B2 makes the win check fire. -/
def c3Game : game :=
  { id := "cg", version := 1,
    grid := [[{ isMined := true, isRevealed := true }, { adjacentMines := 1, isRevealed := true }],
             [{ adjacentMines := 1, isRevealed := true }, { adjacentMines := 1 }]],
    cellCount := 4, revealedOrFlaggedCellCount := 3, isEnded := false,
    events := [event.gameStartedEvent "cg" 1
      [[{ isMined := true }, { adjacentMines := 1 }],
       [{ adjacentMines := 1 }, { adjacentMines := 1 }]]] }

/-- c3Game after revealing B2. -/
def c3After : game := (RevealCell c3Game "B2").toOption.getD default

theorem modifyAt_length {α : Type} (l : List α) (i : Nat) (f : α → α) :
    (modifyAt l i f).length = l.length := by
  induction l generalizing i with
  | nil => rfl
  | cons a as ih => cases i with
    | zero => rfl
    | succ j => simpa [modifyAt] using ih j

theorem modifyAt_oob {α : Type} (l : List α) (i : Nat) (f : α → α)
    (h : l.length ≤ i) : modifyAt l i f = l := by
  induction l generalizing i with
  | nil => rfl
  | cons a as ih => cases i with
    | zero => simp at h
    | succ j => simp only [modifyAt]; rw [ih j (by simpa using h)]

theorem getD_modifyAt_self {α : Type} (l : List α) (i : Nat) (f : α → α) (d : α)
    (h : i < l.length) : (modifyAt l i f).getD i d = f (l.getD i d) := by
  induction l generalizing i with
  | nil => simp at h
  | cons a as ih => cases i with
    | zero => rfl
    | succ j => simpa [modifyAt] using ih j (by simpa using h)

theorem getD_modifyAt_ne {α : Type} (l : List α) (i j : Nat) (f : α → α) (d : α)
    (h : i ≠ j) : (modifyAt l i f).getD j d = l.getD j d := by
  induction l generalizing i j with
  | nil => rfl
  | cons a as ih => cases i with
    | zero => cases j with
      | zero => exact absurd rfl h
      | succ j2 => rfl
    | succ i2 => cases j with
      | zero => rfl
      | succ j2 => simpa [modifyAt] using ih i2 j2 (by omega)

theorem mem_modifyAt {α : Type} {l : List α} {i : Nat} {f : α → α} {y : α}
    (h : y ∈ modifyAt l i f) : y ∈ l ∨ ∃ x ∈ l, y = f x := by
  induction l generalizing i with
  | nil => simp [modifyAt] at h
  | cons a as ih =>
    cases i with
    | zero =>
      rcases List.mem_cons.mp h with h1 | h1
      · exact Or.inr ⟨a, List.mem_cons_self a as, h1⟩
      · exact Or.inl (List.mem_cons_of_mem a h1)
    | succ j =>
      rcases List.mem_cons.mp h with h1 | h1
      · exact Or.inl (h1 ▸ List.mem_cons_self a as)
      · rcases ih h1 with h2 | ⟨x, hx, hy⟩
        · exact Or.inl (List.mem_cons_of_mem a h2)
        · exact Or.inr ⟨x, List.mem_cons_of_mem a hx, hy⟩

theorem getD_oob {α : Type} (l : List α) (i : Nat) (d : α) (h : l.length ≤ i) :
    l.getD i d = d := by
  induction l generalizing i with
  | nil => cases i <;> rfl
  | cons a as ih => cases i with
    | zero => simp at h
    | succ j => simpa using ih j (by simpa using h)

theorem getD_mem {α : Type} (l : List α) (i : Nat) (d : α) (h : i < l.length) :
    l.getD i d ∈ l := by
  induction l generalizing i with
  | nil => simp at h
  | cons a as ih => cases i with
    | zero => exact List.mem_cons_self a as
    | succ j => exact List.mem_cons_of_mem a (ih j (by simpa using h))

/-- Every cellAt read is either the out-of-bounds sentinel or an actual cell
of the grid. -/
theorem cellAt_cases (grid : Grid) (p : coordinate) :
    cellAt grid p = oobCell ∨ ∃ row ∈ grid, cellAt grid p ∈ row := by
  unfold cellAt
  split
  case isTrue hg =>
    by_cases hy : p.2.toNat < grid.length
    · by_cases hx : p.1.toNat < (grid.getD p.2.toNat []).length
      · exact Or.inr ⟨grid.getD p.2.toNat [], getD_mem _ _ _ hy, getD_mem _ _ _ hx⟩
      · have e : (grid.getD p.2.toNat []).getD p.1.toNat oobCell = oobCell :=
          getD_oob _ _ _ (by omega)
        rw [e]; exact Or.inl rfl
    · have e : grid.getD p.2.toNat [] = [] := getD_oob _ _ _ (by omega)
      rw [e]; exact Or.inl rfl
  case isFalse hg => exact Or.inl rfl

/-- A coordinate whose cell reads as unrevealed is a genuine in-grid access:
both components are nonnegative and both indices are in range. -/
theorem cellAt_unrevealed_bounds {grid : Grid} {p : coordinate}
    (h : (cellAt grid p).isRevealed = false) :
    0 ≤ p.1 ∧ 0 ≤ p.2 ∧ p.2.toNat < grid.length ∧
      p.1.toNat < (grid.getD p.2.toNat []).length := by
  unfold cellAt at h
  by_cases hg : 0 ≤ p.1 ∧ 0 ≤ p.2
  · rw [if_pos hg] at h
    by_cases hy : p.2.toNat < grid.length
    · by_cases hx : p.1.toNat < (grid.getD p.2.toNat []).length
      · exact ⟨hg.1, hg.2, hy, hx⟩
      · have e : (grid.getD p.2.toNat []).getD p.1.toNat oobCell = oobCell :=
          getD_oob _ _ _ (by omega)
        rw [e] at h; simp [oobCell] at h
    · have e : grid.getD p.2.toNat [] = [] := getD_oob _ _ _ (by omega)
      rw [e] at h; simp [oobCell] at h
  · rw [if_neg hg] at h; simp [oobCell] at h

theorem cellAt_reveal_self {grid : Grid} {q : coordinate}
    (h : (cellAt grid q).isRevealed = false) :
    cellAt (revealGridCell grid q) q = markRevealed (cellAt grid q) := by
  obtain ⟨h1, h2, hy, hx⟩ := cellAt_unrevealed_bounds h
  unfold cellAt revealGridCell
  rw [if_pos ⟨h1, h2⟩, if_pos ⟨h1, h2⟩, if_pos ⟨h1, h2⟩]
  rw [getD_modifyAt_self _ _ _ _ hy, getD_modifyAt_self _ _ _ _ hx]

theorem cellAt_reveal_ne {grid : Grid} {q p : coordinate} (hne : p ≠ q) :
    cellAt (revealGridCell grid q) p = cellAt grid p := by
  unfold revealGridCell
  by_cases hq : 0 ≤ q.1 ∧ 0 ≤ q.2
  · rw [if_pos hq]
    unfold cellAt
    by_cases hp : 0 ≤ p.1 ∧ 0 ≤ p.2
    · rw [if_pos hp, if_pos hp]
      by_cases hrow : p.2.toNat = q.2.toNat
      · have hxy : q.1.toNat ≠ p.1.toNat := by
          intro hcol
          apply hne
          have e1 : p.1 = q.1 := by omega
          have e2 : p.2 = q.2 := by omega
          obtain ⟨px, py⟩ := p
          obtain ⟨qx, qy⟩ := q
          simp only [Prod.mk.injEq]
          exact ⟨e1, e2⟩
        rw [hrow]
        by_cases hylt : q.2.toNat < grid.length
        · rw [getD_modifyAt_self _ _ _ _ hylt, getD_modifyAt_ne _ _ _ _ _ hxy]
        · rw [modifyAt_oob _ _ _ (by omega)]
      · rw [getD_modifyAt_ne _ _ _ _ _ (fun e => hrow e.symm)]
    · rw [if_neg hp, if_neg hp]
  · rw [if_neg hq]

theorem rowLens_modifyAt_len {α : Type} (grid : List (List α)) (i : Nat)
    (f : List α → List α) (hf : ∀ r, (f r).length = r.length) :
    (modifyAt grid i f).map List.length = grid.map List.length := by
  induction grid generalizing i with
  | nil => rfl
  | cons r rs ih => cases i with
    | zero => simp [modifyAt, hf]
    | succ j => simp [modifyAt, ih j]

theorem rowLens_reveal (grid : Grid) (q : coordinate) :
    rowLens (revealGridCell grid q) = rowLens grid := by
  unfold revealGridCell rowLens
  by_cases hq : 0 ≤ q.1 ∧ 0 ≤ q.2
  · simp only [hq, if_true]
    exact rowLens_modifyAt_len _ _ _ (fun r => modifyAt_length r _ _)
  · simp only [hq, if_false]

theorem mem_getD_index {α : Type} {l : List α} {a : α} (h : a ∈ l) (d : α) :
    ∃ i, i < l.length ∧ l.getD i d = a := by
  induction l with
  | nil => simp at h
  | cons x xs ih =>
    rcases List.mem_cons.mp h with h1 | h1
    · exact ⟨0, by simp, h1.symm⟩
    · obtain ⟨i, hi, he⟩ := ih h1
      exact ⟨i + 1, by simpa using hi, he⟩

/-- A property that holds at every cellAt read holds at every actual cell of
the grid. -/
theorem forall_mem_of_cellAt {grid : Grid} {P : cell → Prop}
    (hP : ∀ p : coordinate, P (cellAt grid p)) :
    ∀ row ∈ grid, ∀ c ∈ row, P c := by
  intro row hrow c hc
  obtain ⟨i, hi, hrowe⟩ := mem_getD_index hrow ([] : List cell)
  obtain ⟨j, hj, hce⟩ := mem_getD_index hc oobCell
  have e : cellAt grid ((j : Int), (i : Int)) = c := by
    unfold cellAt
    rw [if_pos ⟨Int.ofNat_nonneg j, Int.ofNat_nonneg i⟩]
    rw [Int.toNat_ofNat, Int.toNat_ofNat, hrowe, hce]
  exact e ▸ hP ((j : Int), (i : Int))

/-- A property of every actual cell that also holds at the out-of-bounds
sentinel holds at every cellAt read. -/
theorem cellAt_pointwise {grid : Grid} {P : cell → Prop} (hoob : P oobCell)
    (hmem : ∀ row ∈ grid, ∀ c ∈ row, P c) : ∀ p : coordinate, P (cellAt grid p) := by
  intro p
  rcases cellAt_cases grid p with h | ⟨row, hrow, hc⟩
  · rw [h]; exact hoob
  · exact hmem row hrow _ hc

theorem revealedCount_cons (row : List cell) (rows : Grid) :
    revealedCount (row :: rows) = rowRevealed row + revealedCount rows := rfl

theorem countUnrevealed_cons (row : List cell) (rows : Grid) :
    countUnrevealed (row :: rows) = rowUnrevealed row + countUnrevealed rows := rfl

theorem countHidden_cons (row : List cell) (rows : Grid) :
    countHidden (row :: rows) = rowHidden row + countHidden rows := rfl

theorem totalCount_cons (row : List cell) (rows : Grid) :
    totalCount (row :: rows) = row.length + totalCount rows := rfl

theorem rowRevealed_le (row : List cell) : rowRevealed row ≤ row.length :=
  List.length_filter_le _ row

theorem sum_map_modifyAt {α : Type} (f : α → Nat) (l : List α) (i : Nat)
    (g : α → α) (d : α) (hi : i < l.length) :
    ((modifyAt l i g).map f).sum + f (l.getD i d) =
      (l.map f).sum + f (g (l.getD i d)) := by
  induction l generalizing i with
  | nil => simp at hi
  | cons a as ih => cases i with
    | zero =>
      simp only [modifyAt, List.map_cons, List.sum_cons, List.getD_cons_zero]
      omega
    | succ j =>
      have := ih j (by simpa using hi)
      simp only [modifyAt, List.map_cons, List.sum_cons, List.getD_cons_succ]
      omega

theorem rowRevealed_modifyAt_reveal (row : List cell) (j : Nat)
    (hj : j < row.length) (hc : (row.getD j oobCell).isRevealed = false) :
    rowRevealed (modifyAt row j markRevealed) = rowRevealed row + 1 := by
  induction row generalizing j with
  | nil => simp at hj
  | cons a as ih => cases j with
    | zero =>
      simp only [List.getD_cons_zero] at hc
      simp [modifyAt, rowRevealed, markRevealed, List.filter_cons, hc]
    | succ i =>
      simp only [List.getD_cons_succ] at hc
      have := ih i (by simpa using hj) hc
      simp only [modifyAt, rowRevealed, List.filter_cons] at this ⊢
      by_cases ha : a.isRevealed = true <;> simp only [ha] <;> simp <;> omega

theorem rowUnrevealed_modifyAt_reveal (row : List cell) (j : Nat)
    (hj : j < row.length) (hc : (row.getD j oobCell).isRevealed = false) :
    rowUnrevealed (modifyAt row j markRevealed) + 1 = rowUnrevealed row := by
  induction row generalizing j with
  | nil => simp at hj
  | cons a as ih => cases j with
    | zero =>
      simp only [List.getD_cons_zero] at hc
      simp [modifyAt, rowUnrevealed, markRevealed, List.filter_cons, hc]
    | succ i =>
      simp only [List.getD_cons_succ] at hc
      have := ih i (by simpa using hj) hc
      simp only [modifyAt, rowUnrevealed, List.filter_cons] at this ⊢
      by_cases ha : a.isRevealed = true <;> simp only [ha] <;> simp <;> omega

theorem revealedCount_reveal {grid : Grid} {q : coordinate}
    (h : (cellAt grid q).isRevealed = false) :
    revealedCount (revealGridCell grid q) = revealedCount grid + 1 := by
  obtain ⟨h1, h2, hy, hx⟩ := cellAt_unrevealed_bounds h
  have hrow : (cellAt grid q) = (grid.getD q.2.toNat []).getD q.1.toNat oobCell := by
    unfold cellAt; rw [if_pos ⟨h1, h2⟩]
  rw [hrow] at h
  unfold revealGridCell
  rw [if_pos ⟨h1, h2⟩]
  have hs := sum_map_modifyAt rowRevealed grid q.2.toNat
    (fun row => modifyAt row q.1.toNat markRevealed) [] hy
  have hb : (fun row => modifyAt row q.1.toNat markRevealed) (grid.getD q.2.toNat []) =
      modifyAt (grid.getD q.2.toNat []) q.1.toNat markRevealed := rfl
  rw [hb] at hs
  have hr := rowRevealed_modifyAt_reveal (grid.getD q.2.toNat []) q.1.toNat hx h
  unfold revealedCount
  omega

theorem countUnrevealed_reveal {grid : Grid} {q : coordinate}
    (h : (cellAt grid q).isRevealed = false) :
    countUnrevealed (revealGridCell grid q) + 1 = countUnrevealed grid := by
  obtain ⟨h1, h2, hy, hx⟩ := cellAt_unrevealed_bounds h
  have hrow : (cellAt grid q) = (grid.getD q.2.toNat []).getD q.1.toNat oobCell := by
    unfold cellAt; rw [if_pos ⟨h1, h2⟩]
  rw [hrow] at h
  unfold revealGridCell
  rw [if_pos ⟨h1, h2⟩]
  have hs := sum_map_modifyAt rowUnrevealed grid q.2.toNat
    (fun row => modifyAt row q.1.toNat markRevealed) [] hy
  have hb : (fun row => modifyAt row q.1.toNat markRevealed) (grid.getD q.2.toNat []) =
      modifyAt (grid.getD q.2.toNat []) q.1.toNat markRevealed := rfl
  rw [hb] at hs
  have hr := rowUnrevealed_modifyAt_reveal (grid.getD q.2.toNat []) q.1.toNat hx h
  unfold countUnrevealed
  omega

theorem revealedCount_le_totalCount (grid : Grid) :
    revealedCount grid ≤ totalCount grid := by
  induction grid with
  | nil => exact Nat.le_refl 0
  | cons row rows ih =>
    rw [revealedCount_cons, totalCount_cons]
    have := rowRevealed_le row
    omega

theorem all_of_filter_length {α : Type} (p : α → Bool) (l : List α)
    (h : (l.filter p).length = l.length) : ∀ a ∈ l, p a = true := by
  induction l with
  | nil => simp
  | cons x xs ih =>
    intro a ha
    by_cases hx : p x = true
    · rcases List.mem_cons.mp ha with h1 | h1
      · rw [h1]; exact hx
      · refine ih ?_ a h1
        simp only [List.filter_cons, hx, if_true, List.length_cons] at h
        omega
    · exfalso
      have hle := List.length_filter_le p xs
      simp only [List.filter_cons, hx] at h
      simp only [Bool.false_eq_true, if_false, List.length_cons] at h
      omega

theorem allRevealed_of_counts {grid : Grid}
    (h : revealedCount grid = totalCount grid) : AllRevealed grid := by
  induction grid with
  | nil => intro row hrow; simp at hrow
  | cons row rows ih =>
    rw [revealedCount_cons, totalCount_cons] at h
    have h1 := rowRevealed_le row
    have h2 := revealedCount_le_totalCount rows
    intro r hr c hc
    rcases List.mem_cons.mp hr with he | he
    · subst he
      exact all_of_filter_length (fun c => c.isRevealed) r
        (by unfold rowRevealed at h1 h; omega) c hc
    · exact ih (by omega) r he c hc

theorem revealedCount_allRevealed {grid : Grid} (h : AllRevealed grid) :
    revealedCount grid = totalCount grid := by
  induction grid with
  | nil => rfl
  | cons row rows ih =>
    rw [revealedCount_cons, totalCount_cons]
    have h1 : row.filter (fun c => c.isRevealed) = row :=
      List.filter_eq_self.mpr (fun c hc => h row (List.mem_cons_self _ _) c hc)
    unfold rowRevealed
    rw [h1, ih (fun r hr c hc => h r (List.mem_cons_of_mem _ hr) c hc)]

theorem revealedCount_zero {grid : Grid}
    (h : ∀ row ∈ grid, ∀ c ∈ row, c.isRevealed = false) : revealedCount grid = 0 := by
  induction grid with
  | nil => rfl
  | cons row rows ih =>
    rw [revealedCount_cons]
    have h1 : row.filter (fun c => c.isRevealed) = [] := by
      apply List.filter_eq_nil_iff.mpr
      intro c hc
      simp [h row (List.mem_cons_self _ _) c hc]
    rw [ih (fun r hr c hc => h r (List.mem_cons_of_mem _ hr) c hc)]
    unfold rowRevealed
    rw [h1]
    rfl

theorem row_hidden_plus_revealed (row : List cell) :
    (∀ c ∈ row, c.isFlagged = false) →
    rowHidden row + rowRevealed row = row.length := by
  induction row with
  | nil => intro _; rfl
  | cons a as ih =>
    intro h
    have ha : a.isFlagged = false := h a (List.mem_cons_self _ _)
    have has := ih (fun c hc => h c (List.mem_cons_of_mem _ hc))
    unfold rowHidden rowRevealed at has ⊢
    simp only [List.filter_cons, ha]
    by_cases hr : a.isRevealed = true
    · simp only [hr]
      simp
      omega
    · simp only [Bool.not_eq_true] at hr
      simp only [hr]
      simp
      omega

theorem countHidden_noFlags {grid : Grid} (h : NoFlags grid) :
    countHidden grid + revealedCount grid = totalCount grid := by
  induction grid with
  | nil => rfl
  | cons row rows ih =>
    rw [countHidden_cons, revealedCount_cons, totalCount_cons]
    have h1 := row_hidden_plus_revealed row (h row (List.mem_cons_self _ _))
    have h2 := ih (fun r hr c hc => h r (List.mem_cons_of_mem _ hr) c hc)
    omega

theorem noFlags_reveal {grid : Grid} (h : NoFlags grid) (q : coordinate) :
    NoFlags (revealGridCell grid q) := by
  unfold revealGridCell
  split
  case isTrue hq =>
    intro row hrow c hc
    rcases mem_modifyAt hrow with h1 | ⟨row0, hrow0, he⟩
    · exact h row h1 c hc
    · subst he
      rcases mem_modifyAt hc with h2 | ⟨c0, hc0, he2⟩
      · exact h row0 hrow0 c h2
      · subst he2
        simpa [markRevealed] using h row0 hrow0 c0 hc0
  case isFalse hq => exact h

theorem gridWidth_eq_of_rowLens {g1 g2 : Grid} (h : rowLens g1 = rowLens g2) :
    gridWidth g1 = gridWidth g2 := by
  unfold gridWidth
  cases g1 with
  | nil => cases g2 with
    | nil => rfl
    | cons r rs => simp [rowLens] at h
  | cons r rs => cases g2 with
    | nil => simp [rowLens] at h
    | cons r2 rs2 =>
      simp only [rowLens, List.map_cons, List.cons.injEq] at h
      simpa using h.1

theorem gridHeight_eq_of_rowLens {g1 g2 : Grid} (h : rowLens g1 = rowLens g2) :
    gridHeight g1 = gridHeight g2 := by
  have := congrArg List.length h
  simpa [rowLens, gridHeight] using this

theorem allRevealed_map_markRevealed (grid : Grid) :
    AllRevealed (grid.map (fun row => row.map markRevealed)) := by
  intro row hrow c hc
  obtain ⟨row0, hrow0, he⟩ := List.mem_map.mp hrow
  subst he
  obtain ⟨c0, hc0, he2⟩ := List.mem_map.mp hc
  subst he2
  rfl

theorem rowLens_map_markRevealed (grid : Grid) :
    rowLens (grid.map (fun row => row.map markRevealed)) = rowLens grid := by
  unfold rowLens
  rw [List.map_map]
  apply List.map_congr_left
  intro row hrow
  exact List.length_map row markRevealed

theorem noFlags_map_markRevealed {grid : Grid} (h : NoFlags grid) :
    NoFlags (grid.map (fun row => row.map markRevealed)) := by
  intro row hrow c hc
  obtain ⟨row0, hrow0, he⟩ := List.mem_map.mp hrow
  subst he
  obtain ⟨c0, hc0, he2⟩ := List.mem_map.mp hc
  subst he2
  simpa [markRevealed] using h row0 hrow0 c0 hc0

theorem sum_map_le {α : Type} (l : List α) (f : α → Nat) (k : Nat)
    (h : ∀ a ∈ l, f a ≤ k) : (l.map f).sum ≤ l.length * k := by
  induction l with
  | nil => simp
  | cons a as ih =>
    simp only [List.map_cons, List.sum_cons, List.length_cons]
    have h1 := h a (List.mem_cons_self _ _)
    have h2 := ih (fun a2 ha2 => h a2 (List.mem_cons_of_mem _ ha2))
    have : (as.length + 1) * k = as.length * k + k := by ring
    omega

theorem neighborAxis_length_le (v : Int) (bound : Nat) :
    (neighborAxis v bound).length ≤ 3 := by
  unfold neighborAxis
  split <;> split <;> simp

theorem getNeighbors_length_le (c : coordinate) (w h : Nat) :
    (getNeighbors c w h).length ≤ 9 := by
  unfold getNeighbors
  rw [List.length_flatMap]
  have h1 : ∀ x ∈ neighborAxis c.1 w,
      ((neighborAxis c.2 h).filterMap (fun y =>
        if (x, y) ≠ c then some (x, y) else none)).length ≤ 3 := by
    intro x hx
    calc ((neighborAxis c.2 h).filterMap _).length
        ≤ (neighborAxis c.2 h).length := List.length_filterMap_le _ _
      _ ≤ 3 := neighborAxis_length_le _ _
  calc ((neighborAxis c.1 w).map _).sum
      ≤ (neighborAxis c.1 w).length * 3 := sum_map_le _ _ 3 h1
    _ ≤ 3 * 3 := Nat.mul_le_mul_right 3 (neighborAxis_length_le _ _)
    _ ≤ 9 := by omega

theorem loopStep_refl (g : game) : LoopStep g g :=
  ⟨rfl, rfl, rfl, rfl, rfl, rfl, rfl, fun p => ⟨rfl, rfl, rfl⟩, fun p h => h, rfl⟩

theorem loopStep_trans {g1 g2 g3 : game} (a : LoopStep g1 g2) (b : LoopStep g2 g3) :
    LoopStep g1 g3 := by
  refine ⟨?_, ?_, ?_, ?_, ?_, ?_, ?_, ?_, ?_, ?_⟩
  · rw [b.id_eq, a.id_eq]
  · rw [b.version_eq, a.version_eq]
  · rw [b.name_eq, a.name_eq]
  · rw [b.ended_eq, a.ended_eq]
  · rw [b.cellCount_eq, a.cellCount_eq]
  · rw [b.events_eq, a.events_eq]
  · rw [b.shape, a.shape]
  · intro p
    obtain ⟨b1, b2, b3⟩ := b.attrs p
    obtain ⟨a1, a2, a3⟩ := a.attrs p
    exact ⟨b1.trans a1, b2.trans a2, b3.trans a3⟩
  · intro p hp
    exact b.mono p (a.mono p hp)
  · have ha := a.count
    have hb := b.count
    omega

/-- Applying one cellRevealedEvent at a currently-unrevealed coordinate is a
LoopStep. -/
theorem reveal_loopStep {g : game} {c : coordinate}
    (h : (cellAt g.grid c).isRevealed = false) (id : String) (v : Nat) (n : CellName) :
    LoopStep g ((event.cellRevealedEvent id v n c).applyTo g) := by
  show LoopStep g (onCellRevealed g c)
  refine ⟨rfl, rfl, rfl, rfl, rfl, rfl, ?_, ?_, ?_, ?_⟩
  · exact rowLens_reveal g.grid c
  · intro p
    by_cases hpc : p = c
    · subst hpc
      rw [show cellAt (onCellRevealed g p).grid p = markRevealed (cellAt g.grid p) from
        cellAt_reveal_self h]
      exact ⟨rfl, rfl, rfl⟩
    · rw [show cellAt (onCellRevealed g c).grid p = cellAt g.grid p from
        cellAt_reveal_ne hpc]
      exact ⟨rfl, rfl, rfl⟩
  · intro p hp
    by_cases hpc : p = c
    · subst hpc; rw [h] at hp; exact absurd hp (by simp)
    · rw [show cellAt (onCellRevealed g c).grid p = cellAt g.grid p from
        cellAt_reveal_ne hpc]
      exact hp
  · show (g.revealedOrFlaggedCellCount + 1) + revealedCount g.grid =
      g.revealedOrFlaggedCellCount + revealedCount (revealGridCell g.grid c)
    rw [revealedCount_reveal h]
    omega

theorem revealLoop_zero (name : CellName) (g : game) (q : List coordinate)
    (events : List event) : revealLoop name 0 g q events = (g, events) := rfl

theorem revealLoop_nil (name : CellName) (fuel : Nat) (g : game)
    (events : List event) : revealLoop name (fuel + 1) g [] events = (g, events) := rfl

theorem revealLoop_cons (name : CellName) (fuel : Nat) (g : game) (c : coordinate)
    (rest : List coordinate) (events : List event) :
    revealLoop name (fuel + 1) g (c :: rest) events =
      if (!(cellAt g.grid c).isRevealed && !(cellAt g.grid c).isMined) = true then
        revealLoop name fuel
          ((event.cellRevealedEvent g.id (g.version + 1) name c).applyTo g)
          (rest ++ (if (cellAt g.grid c).adjacentMines == 0 then
            getNeighbors c (gridWidth g.grid) (gridHeight g.grid) else []))
          (events ++ [event.cellRevealedEvent g.id (g.version + 1) name c])
      else revealLoop name fuel g rest events := rfl

/-- What any sufficiently-fuelled run of the cascade loop does to the
aggregate: a LoopStep (reveals only), and every event it emits is a
cellRevealedEvent (never terminal). -/
theorem revealLoop_basic (name : CellName) :
    ∀ (fuel : Nat) (g : game) (queue : List coordinate) (events : List event),
    queue.length + 10 * countUnrevealed g.grid < fuel →
    LoopStep g (revealLoop name fuel g queue events).1 ∧
    ∀ e ∈ (revealLoop name fuel g queue events).2, e ∈ events ∨ isTerminalEvent e = false := by
  intro fuel
  induction fuel with
  | zero => intro g queue events hm; omega
  | succ f ih =>
    intro g queue events hm
    cases queue with
    | nil =>
      rw [revealLoop_nil]
      exact ⟨loopStep_refl g, fun e he => Or.inl he⟩
    | cons c rest =>
      rw [revealLoop_cons]
      by_cases hc : (!(cellAt g.grid c).isRevealed && !(cellAt g.grid c).isMined) = true
      · rw [if_pos hc]
        simp only [Bool.and_eq_true, Bool.not_eq_true'] at hc
        have hrev : (cellAt g.grid c).isRevealed = false := hc.1
        have hstep := reveal_loopStep hrev g.id (g.version + 1) name
        have hcu := countUnrevealed_reveal hrev
        have hg2 : ((event.cellRevealedEvent g.id (g.version + 1) name c).applyTo g).grid =
            revealGridCell g.grid c := rfl
        have hlen : (if (cellAt g.grid c).adjacentMines == 0 then
            getNeighbors c (gridWidth g.grid) (gridHeight g.grid) else []).length ≤ 9 := by
          split
          · exact getNeighbors_length_le _ _ _
          · simp
        have hm2 : (rest ++ (if (cellAt g.grid c).adjacentMines == 0 then
            getNeighbors c (gridWidth g.grid) (gridHeight g.grid) else [])).length +
            10 * countUnrevealed
              ((event.cellRevealedEvent g.id (g.version + 1) name c).applyTo g).grid < f := by
          rw [List.length_append, hg2]
          simp only [List.length_cons] at hm
          omega
        obtain ⟨ihs, ihe⟩ := ih _ _ _ hm2
        refine ⟨loopStep_trans hstep ihs, ?_⟩
        intro e he
        rcases ihe e he with h1 | h1
        · rcases List.mem_append.mp h1 with h2 | h2
          · exact Or.inl h2
          · right
            rw [List.mem_singleton.mp h2]
            rfl
        · exact Or.inr h1
      · rw [if_neg hc]
        have hm2 : rest.length + 10 * countUnrevealed g.grid < f := by
          simp only [List.length_cons] at hm
          omega
        exact ih g rest events hm2

theorem revealCell_error_name {g : game} {name : CellName} {msg : String}
    (h : cellNameToCoordinate name = .error msg) : RevealCell g name = .error msg := by
  unfold RevealCell
  rw [h]

theorem revealCell_error_oob {g : game} {name : CellName} {c : coordinate}
    (hname : cellNameToCoordinate name = .ok c)
    (h : containsCoordinate g c = false) : RevealCell g name = .error "invalid cell" := by
  unfold RevealCell
  rw [hname]
  show (if !containsCoordinate g c then Except.error "invalid cell" else _) = _
  rw [h]
  rfl

theorem revealCell_error_revealed {g : game} {name : CellName} {c : coordinate}
    (hname : cellNameToCoordinate name = .ok c)
    (hcontains : containsCoordinate g c = true)
    (h : (cellAt g.grid c).isRevealed = true) :
    RevealCell g name = .error "cell already revealed" := by
  unfold RevealCell
  rw [hname]
  show (if !containsCoordinate g c then Except.error "invalid cell"
    else if (cellAt g.grid c).isRevealed then Except.error "cell already revealed"
    else _) = _
  rw [hcontains, h]
  rfl

/-- Reduction of RevealCell when the target is an unrevealed mined cell: the
loss path.  The initial cellRevealedEvent is applied (not appended), the
gameLostEvent is applied and appended, and the call returns success without
running the cascade or the win check. -/
theorem revealCell_reduce_lost {g : game} {name : CellName} {c : coordinate}
    (hname : cellNameToCoordinate name = .ok c)
    (hcontains : containsCoordinate g c = true)
    (hunrev : (cellAt g.grid c).isRevealed = false)
    (hmined : (cellAt g.grid c).isMined = true) :
    RevealCell g name = .ok { onGameLost (onCellRevealed g c) with
      events := g.events ++ [event.gameLostEvent g.id (g.version + 1)] } := by
  unfold RevealCell
  rw [hname]
  show (if !containsCoordinate g c then Except.error "invalid cell"
    else if (cellAt g.grid c).isRevealed then Except.error "cell already revealed"
    else _) = _
  rw [hcontains, hunrev]
  show (match loseGameIfMined (onCellRevealed g c) c with
    | (g2, some lost) => Except.ok { g2 with events := g2.events ++ [lost] }
    | (g2, none) => _) = _
  have htarget : cellAt (onCellRevealed g c).grid c = markRevealed (cellAt g.grid c) :=
    cellAt_reveal_self hunrev
  have hlose : loseGameIfMined (onCellRevealed g c) c =
      ((event.gameLostEvent g.id (g.version + 1)).applyTo (onCellRevealed g c),
        some (event.gameLostEvent g.id (g.version + 1))) := by
    unfold loseGameIfMined
    rw [htarget]
    have hcond : (!(markRevealed (cellAt g.grid c)).isMined ||
        !(markRevealed (cellAt g.grid c)).isRevealed) = false := by
      simp [markRevealed, hmined]
    simp only [hcond]
    rfl
  rw [hlose]
  rfl

/-- Reduction of RevealCell when the target is an unrevealed non-mined cell:
the cascade runs, then the win check; the initial cellRevealedEvent is never
appended and applying a gameWonEvent is the identity. -/
theorem revealCell_reduce_safe {g : game} {name : CellName} {c : coordinate}
    (hname : cellNameToCoordinate name = .ok c)
    (hcontains : containsCoordinate g c = true)
    (hunrev : (cellAt g.grid c).isRevealed = false)
    (hunmined : (cellAt g.grid c).isMined = false) :
    RevealCell g name =
      (if (cascadeResult g c name).cellCount ≠
          (cascadeResult g c name).revealedOrFlaggedCellCount then
        Except.ok (cascadeResult g c name)
       else Except.ok { cascadeResult g c name with
         events := (cascadeResult g c name).events ++
           [event.gameWonEvent (cascadeResult g c name).id
             ((cascadeResult g c name).version + 1)] }) := by
  unfold RevealCell
  rw [hname]
  show (if !containsCoordinate g c then Except.error "invalid cell"
    else if (cellAt g.grid c).isRevealed then Except.error "cell already revealed"
    else _) = _
  rw [hcontains, hunrev]
  show (match loseGameIfMined (onCellRevealed g c) c with
    | (g2, some lost) => Except.ok { g2 with events := g2.events ++ [lost] }
    | (g2, none) =>
      match revealNeighborsIfNoAdjacentMines g2 c name with
      | (g3, revealedNeighbors) =>
        let g4 : game := { g3 with events := g3.events ++ revealedNeighbors }
        match winGameIfLastCell g4 c with
        | (g5, some won) => Except.ok { g5 with events := g5.events ++ [won] }
        | (g5, none) => Except.ok g5) = _
  have htarget : cellAt (onCellRevealed g c).grid c = markRevealed (cellAt g.grid c) :=
    cellAt_reveal_self hunrev
  have hlose : loseGameIfMined (onCellRevealed g c) c = (onCellRevealed g c, none) := by
    unfold loseGameIfMined
    rw [htarget]
    have hcond : (!(markRevealed (cellAt g.grid c)).isMined ||
        !(markRevealed (cellAt g.grid c)).isRevealed) = true := by
      simp [markRevealed, hunmined]
    simp only [hcond]
    rfl
  rw [hlose]
  unfold cascadeResult
  show (match revealNeighborsIfNoAdjacentMines (onCellRevealed g c) c name with
    | (g3, revealedNeighbors) =>
      let g4 : game := { g3 with events := g3.events ++ revealedNeighbors }
      match winGameIfLastCell g4 c with
      | (g5, some won) => Except.ok { g5 with events := g5.events ++ [won] }
      | (g5, none) => Except.ok g5) = _
  generalize revealNeighborsIfNoAdjacentMines (onCellRevealed g c) c name = r
  obtain ⟨g3, evs⟩ := r
  show (match winGameIfLastCell { g3 with events := g3.events ++ evs } c with
    | (g5, some won) => Except.ok { g5 with events := g5.events ++ [won] }
    | (g5, none) => Except.ok g5) = _
  unfold winGameIfLastCell
  by_cases hwin : ({ g3 with events := g3.events ++ evs } : game).cellCount ≠
      ({ g3 with events := g3.events ++ evs } : game).revealedOrFlaggedCellCount
  · rw [if_pos hwin, if_pos hwin]
  · rw [if_neg hwin, if_neg hwin]
    rfl

theorem totalCount_eq_of_rowLens {g1 g2 : Grid} (h : rowLens g1 = rowLens g2) :
    totalCount g1 = totalCount g2 := congrArg List.sum h

/-- C6: revealing an unrevealed mined cell applies and appends a
gameLostEvent, which sets isEnded, reveals every cell, and brings
revealedOrFlaggedCellCount up to cellCount; RevealCell returns success with
exactly that one event appended — no cascade, no win check.  The hypotheses
hflags, hcount and hcells are the counter/flag invariants that hold in every
reachable game (theorem c10_no_flags_counter_matches_reveals). -/
theorem c6_reveal_mine_loses (g : game) (name : CellName) (c : coordinate)
    (hname : cellNameToCoordinate name = .ok c)
    (hcontains : containsCoordinate g c = true)
    (hunrev : (cellAt g.grid c).isRevealed = false)
    (hmined : (cellAt g.grid c).isMined = true)
    (hflags : NoFlags g.grid)
    (hcount : g.revealedOrFlaggedCellCount = revealedCount g.grid)
    (hcells : g.cellCount = totalCount g.grid) :
    ∃ g2, RevealCell g name = .ok g2 ∧
      g2.isEnded = true ∧
      AllRevealed g2.grid ∧
      g2.revealedOrFlaggedCellCount = g2.cellCount ∧
      g2.events = g.events ++ [event.gameLostEvent g.id (g.version + 1)] := by
  refine ⟨_, revealCell_reduce_lost hname hcontains hunrev hmined, rfl, ?_, ?_, rfl⟩
  · exact allRevealed_map_markRevealed _
  · show (onGameLost (onCellRevealed g c)).revealedOrFlaggedCellCount =
      (onGameLost (onCellRevealed g c)).cellCount
    show (g.revealedOrFlaggedCellCount + 1) + countHidden (revealGridCell g.grid c) =
      g.cellCount
    have h1 : NoFlags (revealGridCell g.grid c) := noFlags_reveal hflags c
    have h2 := countHidden_noFlags h1
    have h3 := revealedCount_reveal hunrev
    have h4 : totalCount (revealGridCell g.grid c) = totalCount g.grid :=
      totalCount_eq_of_rowLens (rowLens_reveal g.grid c)
    omega

/-- C8: when the cell name is malformed, the decoded coordinate is out of
bounds, or the target cell is already revealed, RevealCell returns an error.
In this functional model an error result carries no successor state, which is
precisely the all-or-nothing contract: nothing is applied and nothing is
appended before validation completes. -/
theorem c8_validation_rejects (g : game) (name : CellName)
    (h : (∃ msg, cellNameToCoordinate name = .error msg) ∨
         (∃ c, cellNameToCoordinate name = .ok c ∧ containsCoordinate g c = false) ∨
         (∃ c, cellNameToCoordinate name = .ok c ∧ containsCoordinate g c = true ∧
           (cellAt g.grid c).isRevealed = true)) :
    ∃ msg, RevealCell g name = .error msg := by
  rcases h with ⟨msg, hmsg⟩ | ⟨c, hc, hoob⟩ | ⟨c, hc, hin, hrev⟩
  · exact ⟨msg, revealCell_error_name hmsg⟩
  · exact ⟨"invalid cell", revealCell_error_oob hc hoob⟩
  · exact ⟨"cell already revealed", revealCell_error_revealed hc hin hrev⟩

theorem setCellOpt_preserves {grid g2 : Grid} {i j : Nat} {f : cell → cell}
    (hs : setCellOpt grid i j f = some g2) (P : cell → Prop)
    (hf : ∀ cl, P cl → P (f cl)) (hP : AllCellsP P grid) :
    rowLens g2 = rowLens grid ∧ AllCellsP P g2 := by
  unfold setCellOpt at hs
  split at hs
  case isTrue hcond =>
    have he := Option.some.inj hs
    subst he
    constructor
    · show rowLens (modifyAt grid i fun row => modifyAt row j f) = rowLens grid
      unfold rowLens
      exact rowLens_modifyAt_len _ _ _ (fun r => modifyAt_length r j f)
    · intro row hrow c hc
      rcases mem_modifyAt hrow with h1 | ⟨row0, hrow0, he⟩
      · exact hP row h1 c hc
      · subst he
        rcases mem_modifyAt hc with h2 | ⟨c0, hc0, he2⟩
        · exact hP row0 hrow0 c h2
        · subst he2
          exact hf c0 (hP row0 hrow0 c0 hc0)
  case isFalse hcond => simp at hs

theorem incIf_preserves {grid g2 : Grid} {b : Bool} {i j : Nat}
    (hs : incIf b i j grid = some g2) (P : cell → Prop)
    (hi : ∀ cl, P cl → P (incAdjacent cl)) (hP : AllCellsP P grid) :
    rowLens g2 = rowLens grid ∧ AllCellsP P g2 := by
  unfold incIf at hs
  split at hs
  · exact setCellOpt_preserves hs P hi hP
  · have he := Option.some.inj hs
    subst he
    exact ⟨rfl, hP⟩

theorem applyMine_preserves {w h : Nat} {grid g2 : Grid} {c : Nat × Nat}
    (hstep : applyMine w h grid c = some g2) (P : cell → Prop)
    (hm : ∀ cl, P cl → P (markMined cl)) (hi : ∀ cl, P cl → P (incAdjacent cl))
    (hP : AllCellsP P grid) : rowLens g2 = rowLens grid ∧ AllCellsP P g2 := by
  unfold applyMine at hstep
  simp only [Option.bind_eq_some] at hstep
  obtain ⟨a1, h1, a2, h2, a3, h3, a4, h4, a5, h5, a6, h6, a7, h7, a8, h8, h9⟩ := hstep
  obtain ⟨s1, p1⟩ := setCellOpt_preserves h1 P hm hP
  obtain ⟨s2, p2⟩ := incIf_preserves h2 P hi p1
  obtain ⟨s3, p3⟩ := incIf_preserves h3 P hi p2
  obtain ⟨s4, p4⟩ := incIf_preserves h4 P hi p3
  obtain ⟨s5, p5⟩ := incIf_preserves h5 P hi p4
  obtain ⟨s6, p6⟩ := incIf_preserves h6 P hi p5
  obtain ⟨s7, p7⟩ := incIf_preserves h7 P hi p6
  obtain ⟨s8, p8⟩ := incIf_preserves h8 P hi p7
  obtain ⟨s9, p9⟩ := incIf_preserves h9 P hi p8
  refine ⟨?_, p9⟩
  rw [s9, s8, s7, s6, s5, s4, s3, s2, s1]

theorem foldlM_applyMine_preserves {w h : Nat} (P : cell → Prop)
    (hm : ∀ cl, P cl → P (markMined cl)) (hi : ∀ cl, P cl → P (incAdjacent cl)) :
    ∀ (ps : List (Nat × Nat)) (acc grid : Grid),
    List.foldlM (applyMine w h) acc ps = some grid →
    AllCellsP P acc → rowLens grid = rowLens acc ∧ AllCellsP P grid := by
  intro ps
  induction ps with
  | nil =>
    intro acc grid hfold hP
    simp only [List.foldlM_nil] at hfold
    have he := Option.some.inj hfold
    subst he
    exact ⟨rfl, hP⟩
  | cons x xs ih =>
    intro acc grid hfold hP
    rw [List.foldlM_cons] at hfold
    cases happ : applyMine w h acc x with
    | none =>
      rw [happ] at hfold
      exact Option.noConfusion hfold
    | some a1 =>
      rw [happ] at hfold
      have hfold2 : List.foldlM (applyMine w h) a1 xs = some grid := hfold
      obtain ⟨s1, p1⟩ := applyMine_preserves happ P hm hi hP
      obtain ⟨s2, p2⟩ := ih a1 grid hfold2 p1
      exact ⟨s2.trans s1, p2⟩

theorem initEmptyMatrix_rowLens (w h : Nat) :
    rowLens (initEmptyMatrix w h) = List.replicate h w := by
  unfold initEmptyMatrix rowLens
  rw [List.map_replicate, List.length_replicate]

theorem initEmptyMatrix_cells (w h : Nat) :
    AllCellsP (fun c => c.isRevealed = false ∧ c.isFlagged = false)
      (initEmptyMatrix w h) := by
  intro row hrow c hc
  rw [List.eq_of_mem_replicate hrow] at hc
  rw [List.eq_of_mem_replicate hc]
  exact ⟨rfl, rfl⟩

theorem sum_replicate_nat (n k : Nat) : (List.replicate n k).sum = n * k := by
  induction n with
  | zero => simp
  | succ m ih =>
    rw [List.replicate_succ, List.sum_cons, ih]
    ring

/-- The facts about any grid generateGrid actually returns: its shape is
height rows of width cells, every cell starts unrevealed and unflagged, and
the validated dimensions are at least 2. -/
theorem generateGrid_ok_facts {w h mc : Nat} {ps : List (Nat × Nat)} {grid : Grid}
    (hgen : generateGrid w h mc ps = .ok grid) :
    rowLens grid = List.replicate h w ∧
    AllCellsP (fun c => c.isRevealed = false ∧ c.isFlagged = false) grid ∧
    2 ≤ w ∧ 2 ≤ h := by
  unfold generateGrid at hgen
  split at hgen
  · exact absurd hgen (by simp)
  case isFalse hdim =>
    split at hgen
    · exact absurd hgen (by simp)
    · split at hgen
      · exact absurd hgen (by simp)
      · split at hgen
        · exact absurd hgen (by simp)
        · split at hgen
          · exact absurd hgen (by simp)
          case h_2 grid2 hfold =>
            have he := GenResult.ok.inj hgen
            subst he
            obtain ⟨hs, hc⟩ := foldlM_applyMine_preserves _
              (fun cl hcl => hcl) (fun cl hcl => hcl) ps _ _ hfold
              (initEmptyMatrix_cells w h)
            refine ⟨hs.trans (initEmptyMatrix_rowLens w h), hc, by omega, by omega⟩

theorem gridWidth_rowLens (grid : Grid) : gridWidth grid = (rowLens grid).headD 0 := by
  cases grid <;> rfl

theorem rect_of_rowLens {a b : Grid} (h : rowLens a = rowLens b) (hb : Rect b) :
    Rect a := by
  intro row hrow
  have h1 : row.length ∈ rowLens a := List.mem_map_of_mem List.length hrow
  rw [h] at h1
  obtain ⟨row2, hrow2, he⟩ := List.mem_map.mp h1
  rw [← he, hb row2 hrow2]
  exact (gridWidth_eq_of_rowLens h).symm

theorem rect_from_replicate {grid : Grid} {h w : Nat}
    (hrep : rowLens grid = List.replicate h w) : Rect grid := by
  intro row hrow
  have h1 : row.length ∈ rowLens grid := List.mem_map_of_mem List.length hrow
  rw [hrep] at h1
  have h2 := List.eq_of_mem_replicate h1
  rw [gridWidth_rowLens, hrep]
  cases h with
  | zero =>
    exfalso
    rw [List.replicate_zero] at h1
    simp at h1
  | succ h2n =>
    rw [List.replicate_succ]
    exact h2

theorem allRevealed_pointwise {grid : Grid} (h : AllRevealed grid) :
    ∀ p : coordinate, (cellAt grid p).isRevealed = true :=
  @cellAt_pointwise grid (fun cl => cl.isRevealed = true) rfl h

theorem noFlags_pointwise {grid : Grid} (h : NoFlags grid) :
    ∀ p : coordinate, (cellAt grid p).isFlagged = false :=
  @cellAt_pointwise grid (fun cl => cl.isFlagged = false) rfl h

theorem inv_start {w h mc : Nat} {ps : List (Nat × Nat)} {grid : Grid} (id : String)
    (hgen : generateGrid w h mc ps = .ok grid) : Inv (NewGame grid id) := by
  obtain ⟨hshape, hcells, hw, hh⟩ := generateGrid_ok_facts hgen
  have hlen : grid.length = h := by
    have := congrArg List.length hshape
    simpa [rowLens] using this
  obtain ⟨h2, rfl⟩ : ∃ h2, h = h2 + 1 := ⟨h - 1, by omega⟩
  refine ⟨?_, ?_, ?_, ?_, ?_⟩
  · exact rect_from_replicate hshape
  · show gridHeight grid * gridWidth grid = totalCount grid
    rw [gridWidth_rowLens, hshape]
    unfold gridHeight totalCount
    rw [hshape, sum_replicate_nat, hlen, List.replicate_succ]
    rfl
  · intro row hrow c hc
    exact (hcells row hrow c hc).2
  · show (0 : Nat) = revealedCount grid
    exact (revealedCount_zero (fun row hrow c hc => (hcells row hrow c hc).1)).symm
  · intro ⟨e, he, ht⟩
    have hev : (NewGame grid id).events = [event.gameStartedEvent id 1 grid] := rfl
    rw [hev] at he
    have he2 : e = event.gameStartedEvent id 1 grid := by simpa using he
    subst he2
    simp [isTerminalEvent] at ht

theorem cascade_basic (g1 : game) (c : coordinate) (name : CellName) :
    LoopStep g1 (revealNeighborsIfNoAdjacentMines g1 c name).1 ∧
    ∀ e ∈ (revealNeighborsIfNoAdjacentMines g1 c name).2, isTerminalEvent e = false := by
  unfold revealNeighborsIfNoAdjacentMines
  split
  · refine ⟨loopStep_refl g1, ?_⟩
    intro e he
    simp at he
  · have hm : (getNeighbors c (gridWidth g1.grid) (gridHeight g1.grid)).length +
        10 * countUnrevealed g1.grid <
        loopFuelBound g1 (getNeighbors c (gridWidth g1.grid) (gridHeight g1.grid)) := by
      unfold loopFuelBound
      omega
    obtain ⟨hs, he⟩ := revealLoop_basic name _ g1 _ [] hm
    refine ⟨hs, ?_⟩
    intro e hme
    rcases he e hme with h1 | h1
    · simp at h1
    · exact h1

/-- Every successful RevealCell preserves the state invariants. -/
theorem inv_step {g g2 : game} {name : CellName} (inv : Inv g)
    (hstep : RevealCell g name = .ok g2) : Inv g2 := by
  cases hn : cellNameToCoordinate name with
  | error msg =>
    rw [revealCell_error_name hn] at hstep
    exact Except.noConfusion hstep
  | ok c =>
    cases hcont : containsCoordinate g c with
    | false =>
      rw [revealCell_error_oob hn hcont] at hstep
      exact Except.noConfusion hstep
    | true =>
      cases hrev : (cellAt g.grid c).isRevealed with
      | true =>
        rw [revealCell_error_revealed hn hcont hrev] at hstep
        exact Except.noConfusion hstep
      | false =>
        cases hm : (cellAt g.grid c).isMined with
        | true =>
          rw [revealCell_reduce_lost hn hcont hrev hm] at hstep
          have he := Except.ok.inj hstep
          subst he
          have hflags1 : NoFlags (revealGridCell g.grid c) := noFlags_reveal inv.noFlags c
          have hshape : rowLens ((revealGridCell g.grid c).map
              (fun row => row.map markRevealed)) = rowLens g.grid := by
            rw [rowLens_map_markRevealed, rowLens_reveal]
          refine ⟨?_, ?_, ?_, ?_, ?_⟩
          · exact rect_of_rowLens hshape inv.rect
          · show g.cellCount = totalCount _
            rw [inv.cellCount_eq]
            exact (totalCount_eq_of_rowLens hshape).symm
          · exact noFlags_map_markRevealed hflags1
          · show (g.revealedOrFlaggedCellCount + 1) + countHidden (revealGridCell g.grid c) =
              revealedCount ((revealGridCell g.grid c).map (fun row => row.map markRevealed))
            have h2 := countHidden_noFlags hflags1
            have h3 := revealedCount_reveal hrev
            have h4 := revealedCount_allRevealed
              (allRevealed_map_markRevealed (revealGridCell g.grid c))
            have h5 : totalCount ((revealGridCell g.grid c).map
                (fun row => row.map markRevealed)) = totalCount (revealGridCell g.grid c) :=
              totalCount_eq_of_rowLens (rowLens_map_markRevealed _)
            have h6 := inv.count_eq
            omega
          · intro _
            exact allRevealed_map_markRevealed _
        | false =>
          rw [revealCell_reduce_safe hn hcont hrev hm] at hstep
          have hstep1 := reveal_loopStep hrev g.id (g.version + 1) name
          obtain ⟨hs2, hne⟩ := cascade_basic (onCellRevealed g c) c name
          have S : LoopStep g (revealNeighborsIfNoAdjacentMines (onCellRevealed g c) c name).1 :=
            loopStep_trans hstep1 hs2
          have rect2 : Rect (revealNeighborsIfNoAdjacentMines (onCellRevealed g c) c name).1.grid :=
            rect_of_rowLens S.shape inv.rect
          have cc2 : (revealNeighborsIfNoAdjacentMines (onCellRevealed g c) c name).1.cellCount =
              totalCount (revealNeighborsIfNoAdjacentMines (onCellRevealed g c) c name).1.grid := by
            rw [S.cellCount_eq, inv.cellCount_eq]
            exact (totalCount_eq_of_rowLens S.shape).symm
          have nf2 : NoFlags (revealNeighborsIfNoAdjacentMines (onCellRevealed g c) c name).1.grid := by
            apply forall_mem_of_cellAt
            intro p
            rw [(S.attrs p).2.2]
            exact noFlags_pointwise inv.noFlags p
          have ct2 : (revealNeighborsIfNoAdjacentMines (onCellRevealed g c) c name).1.revealedOrFlaggedCellCount =
              revealedCount (revealNeighborsIfNoAdjacentMines (onCellRevealed g c) c name).1.grid := by
            have h1 := S.count
            have h2 := inv.count_eq
            omega
          have hterm2 : ∀ e ∈ (revealNeighborsIfNoAdjacentMines (onCellRevealed g c) c name).1.events ++
              (revealNeighborsIfNoAdjacentMines (onCellRevealed g c) c name).2,
              isTerminalEvent e = true → False := by
            intro e he2 hte
            rcases List.mem_append.mp he2 with h1 | h1
            · have hg : HasTerminalEvent g := ⟨e, by rw [← S.events_eq]; exact h1, hte⟩
              have hall := allRevealed_pointwise (inv.terminal_all hg) c
              rw [hrev] at hall
              exact Bool.noConfusion hall
            · have := hne e h1
              rw [this] at hte
              exact Bool.noConfusion hte
          have hcas : cascadeResult g c name =
              { (revealNeighborsIfNoAdjacentMines (onCellRevealed g c) c name).1 with
                events := (revealNeighborsIfNoAdjacentMines (onCellRevealed g c) c name).1.events ++
                  (revealNeighborsIfNoAdjacentMines (onCellRevealed g c) c name).2 } := rfl
          rw [hcas] at hstep
          split at hstep
          case isTrue hwin =>
            have he := Except.ok.inj hstep
            subst he
            refine ⟨rect2, cc2, nf2, ct2, ?_⟩
            intro ⟨e, he2, hte⟩
            exact (hterm2 e he2 hte).elim
          case isFalse hwin =>
            have he := Except.ok.inj hstep
            subst he
            refine ⟨rect2, cc2, nf2, ct2, ?_⟩
            intro _
            have heq : (revealNeighborsIfNoAdjacentMines (onCellRevealed g c) c name).1.cellCount =
                (revealNeighborsIfNoAdjacentMines (onCellRevealed g c) c name).1.revealedOrFlaggedCellCount :=
              not_ne_iff.mp hwin
            have hall : AllRevealed
                (revealNeighborsIfNoAdjacentMines (onCellRevealed g c) c name).1.grid := by
              apply allRevealed_of_counts
              omega
            exact hall

/-- Every reachable game satisfies the state invariants. -/
theorem reachable_inv {g : game} (h : Reachable g) : Inv g := by
  induction h with
  | start w h2 mc ps id grid hcan hgen => exact inv_start id hgen
  | step g1 name g2 hreach hstep ih => exact inv_step ih hstep

/-- The cascade loop preserves CascadeInv and ends with an empty queue. -/
theorem revealLoop_cascadeInv (G : Grid) (start : coordinate) (name : CellName) :
    ∀ (fuel : Nat) (g : game) (queue : List coordinate) (events : List event),
    queue.length + 10 * countUnrevealed g.grid < fuel →
    CascadeInv G start g queue →
    CascadeInv G start (revealLoop name fuel g queue events).1 [] := by
  intro fuel
  induction fuel with
  | zero => intro g queue events hm hinv; omega
  | succ f ih =>
    intro g queue events hm hinv
    cases queue with
    | nil => rw [revealLoop_nil]; exact hinv
    | cons c rest =>
      rw [revealLoop_cons]
      by_cases hc : (!(cellAt g.grid c).isRevealed && !(cellAt g.grid c).isMined) = true
      · rw [if_pos hc]
        simp only [Bool.and_eq_true, Bool.not_eq_true'] at hc
        obtain ⟨hcr, hcm⟩ := hc
        have hB : cellAt ((event.cellRevealedEvent g.id (g.version + 1) name c).applyTo g).grid c =
            markRevealed (cellAt g.grid c) := cellAt_reveal_self hcr
        have hA : ∀ p : coordinate, p ≠ c →
            cellAt ((event.cellRevealedEvent g.id (g.version + 1) name c).applyTo g).grid p =
            cellAt g.grid p := fun p hp => cellAt_reveal_ne hp
        have hMono : ∀ p : coordinate, (cellAt g.grid p).isRevealed = true →
            (cellAt ((event.cellRevealedEvent g.id (g.version + 1) name c).applyTo g).grid p).isRevealed = true := by
          intro p hp
          by_cases hpc : p = c
          · subst hpc; rw [hB]; rfl
          · rw [hA p hpc]; exact hp
        have hAttrs : ∀ p : coordinate,
            (cellAt ((event.cellRevealedEvent g.id (g.version + 1) name c).applyTo g).grid p).isMined =
              (cellAt g.grid p).isMined ∧
            (cellAt ((event.cellRevealedEvent g.id (g.version + 1) name c).applyTo g).grid p).adjacentMines =
              (cellAt g.grid p).adjacentMines := by
          intro p
          by_cases hpc : p = c
          · subst hpc; rw [hB]; exact ⟨rfl, rfl⟩
          · rw [hA p hpc]; exact ⟨rfl, rfl⟩
        have hShape : rowLens ((event.cellRevealedEvent g.id (g.version + 1) name c).applyTo g).grid =
            rowLens g.grid := rowLens_reveal g.grid c
        have hdim : getNeighbors c (gridWidth ((event.cellRevealedEvent g.id (g.version + 1) name c).applyTo g).grid)
              (gridHeight ((event.cellRevealedEvent g.id (g.version + 1) name c).applyTo g).grid) =
            getNeighbors c (gridWidth g.grid) (gridHeight g.grid) := by
          rw [gridWidth_eq_of_rowLens hShape, gridHeight_eq_of_rowLens hShape]
        have hcu := countUnrevealed_reveal hcr
        have hg2 : ((event.cellRevealedEvent g.id (g.version + 1) name c).applyTo g).grid =
            revealGridCell g.grid c := rfl
        have hlen : (if (cellAt g.grid c).adjacentMines == 0 then
            getNeighbors c (gridWidth g.grid) (gridHeight g.grid) else []).length ≤ 9 := by
          split
          · exact getNeighbors_length_le _ _ _
          · simp
        have hm2 : (rest ++ (if (cellAt g.grid c).adjacentMines == 0 then
            getNeighbors c (gridWidth g.grid) (gridHeight g.grid) else [])).length +
            10 * countUnrevealed
              ((event.cellRevealedEvent g.id (g.version + 1) name c).applyTo g).grid < f := by
          rw [List.length_append, hg2]
          simp only [List.length_cons] at hm
          omega
        apply ih _ _ _ hm2
        refine ⟨?_, ?_, ?_, ?_, ?_, ?_, ?_⟩
        · exact hShape.trans hinv.shapeG
        · intro p
          obtain ⟨a1, a2⟩ := hAttrs p
          obtain ⟨b1, b2⟩ := hinv.attrsG p
          exact ⟨a1.trans b1, a2.trans b2⟩
        · intro p hp
          exact hMono p (hinv.monoG p hp)
        · exact hMono start hinv.startRev
        · intro p hp
          by_cases hpc : p = c
          · subst hpc
            exact Or.inr (hinv.queueZP p (List.mem_cons_self _ _))
          · rw [hA p hpc] at hp
            exact hinv.sound p hp
        · intro q hq
          rcases List.mem_append.mp hq with h1 | h1
          · exact hinv.queueZP q (List.mem_cons_of_mem _ h1)
          · have hzc : (cellAt g.grid c).adjacentMines = 0 := by
              by_cases hz : (cellAt g.grid c).adjacentMines = 0
              · exact hz
              · rw [if_neg (by simpa using hz)] at h1
                simp at h1
            rw [if_pos (by simpa using hzc)] at h1
            have hzG : (cellAt G c).adjacentMines = 0 := (hinv.attrsG c).2 ▸ hzc
            have h1G : q ∈ getNeighbors c (gridWidth G) (gridHeight G) := by
              rw [← gridWidth_eq_of_rowLens hinv.shapeG, ← gridHeight_eq_of_rowLens hinv.shapeG]
              exact h1
            exact ZeroPath.step (hinv.queueZP c (List.mem_cons_self _ _)) hzG h1G
        · intro p hz2 hr2 b hmemb
          have hmemb2 : b ∈ getNeighbors p (gridWidth g.grid) (gridHeight g.grid) := by
            rw [← gridWidth_eq_of_rowLens hShape, ← gridHeight_eq_of_rowLens hShape]
            exact hmemb
          have hMined : ∀ q2 : coordinate,
              (cellAt ((event.cellRevealedEvent g.id (g.version + 1) name c).applyTo g).grid q2).isMined =
              (cellAt g.grid q2).isMined := fun q2 => (hAttrs q2).1
          by_cases hpc : p = c
          · subst hpc
            have hzg : (cellAt g.grid p).adjacentMines = 0 := (hAttrs p).2 ▸ hz2
            right; right
            apply List.mem_append.mpr
            right
            rw [if_pos (by simpa using hzg)]
            rw [hdim] at hmemb
            exact hmemb
          · rw [hA p hpc] at hz2 hr2
            rcases hinv.frontier p hz2 hr2 b hmemb2 with h1 | h1 | h1
            · exact Or.inl (hMono b h1)
            · right; left
              rw [hMined b]
              exact h1
            · rcases List.mem_cons.mp h1 with h2 | h2
              · subst h2
                left
                rw [hB]
                rfl
              · right; right
                exact List.mem_append.mpr (Or.inl h2)
      · rw [if_neg hc]
        have hm2 : rest.length + 10 * countUnrevealed g.grid < f := by
          simp only [List.length_cons] at hm
          omega
        apply ih _ _ _ hm2
        have hrm : (cellAt g.grid c).isRevealed = true ∨ (cellAt g.grid c).isMined = true := by
          by_cases h1 : (cellAt g.grid c).isRevealed = true
          · exact Or.inl h1
          · by_cases h2 : (cellAt g.grid c).isMined = true
            · exact Or.inr h2
            · exfalso
              apply hc
              simp only [Bool.not_eq_true] at h1 h2
              simp [h1, h2]
        refine ⟨hinv.shapeG, hinv.attrsG, hinv.monoG, hinv.startRev, hinv.sound, ?_, ?_⟩
        · intro q hq
          exact hinv.queueZP q (List.mem_cons_of_mem _ hq)
        · intro p hz hr b hmemb
          rcases hinv.frontier p hz hr b hmemb with h1 | h1 | h1
          · exact Or.inl h1
          · exact Or.inr (Or.inl h1)
          · rcases List.mem_cons.mp h1 with h2 | h2
            · subst h2
              rcases hrm with h3 | h3
              · exact Or.inl h3
              · exact Or.inr (Or.inl h3)
            · exact Or.inr (Or.inr h2)

/-- In a zero-consistent grid, every endpoint of a zero-path from an unmined
start is unmined. -/
theorem zeroPath_unmined {G : Grid} {start p : coordinate}
    (hcons : ZeroConsistent G) (hstart : (cellAt G start).isMined = false)
    (hp : ZeroPath G start p) : (cellAt G p).isMined = false := by
  induction hp with
  | refl => exact hstart
  | step hpa hza hmem ih => exact hcons _ hza _ hmem

/-- When the queue is exhausted, every zero-path endpoint is revealed. -/
theorem cascadeInv_complete {G : Grid} {start : coordinate} {gf : game}
    (inv : CascadeInv G start gf []) (hcons : ZeroConsistent G) :
    ∀ p : coordinate, ZeroPath G start p → (cellAt gf.grid p).isRevealed = true := by
  intro p hp
  induction hp with
  | refl => exact inv.startRev
  | @step a b hpa hza hmem ih =>
    have hz2 : (cellAt gf.grid a).adjacentMines = 0 := by
      rw [(inv.attrsG a).2]
      exact hza
    have hmem2 : b ∈ getNeighbors a (gridWidth gf.grid) (gridHeight gf.grid) := by
      rw [gridWidth_eq_of_rowLens inv.shapeG, gridHeight_eq_of_rowLens inv.shapeG]
      exact hmem
    rcases inv.frontier a hz2 ih b hmem2 with h1 | h1 | h1
    · exact h1
    · exfalso
      have hub : (cellAt G b).isMined = false := hcons a hza b hmem
      rw [(inv.attrsG b).1, hub] at h1
      exact Bool.noConfusion h1
    · simp at h1

/-- Under rectangularity, a coordinate outside the grid bounds reads as the
out-of-bounds sentinel. -/
theorem rect_cellAt_oob {grid : Grid} (hrect : Rect grid) (p : coordinate)
    (h : ¬(0 ≤ p.1 ∧ p.1 < (gridWidth grid : Int) ∧ 0 ≤ p.2 ∧
      p.2 < (gridHeight grid : Int))) : cellAt grid p = oobCell := by
  unfold cellAt
  by_cases hg : 0 ≤ p.1 ∧ 0 ≤ p.2
  · rw [if_pos hg]
    by_cases hy : p.2.toNat < grid.length
    · have hrow : grid.getD p.2.toNat [] ∈ grid := getD_mem _ _ _ hy
      have hlen : (grid.getD p.2.toNat []).length = gridWidth grid := hrect _ hrow
      have hx : (grid.getD p.2.toNat []).length ≤ p.1.toNat := by
        unfold gridHeight at h
        omega
      exact getD_oob _ _ _ hx
    · have e : grid.getD p.2.toNat [] = [] := getD_oob _ _ _ (by omega)
      rw [e]
      rfl
  · rw [if_neg hg]

/-- Bridge from the bounded (decidable) form of zero-consistency to the
pointwise form, for rectangular grids. -/
theorem zeroConsistent_of_bounded {grid : Grid} (hrect : Rect grid)
    (hb : ∀ x < gridWidth grid, ∀ y < gridHeight grid,
      (cellAt grid ((x : Int), (y : Int))).adjacentMines = 0 →
      ∀ b ∈ getNeighbors ((x : Int), (y : Int)) (gridWidth grid) (gridHeight grid),
        (cellAt grid b).isMined = false) : ZeroConsistent grid := by
  intro p hz b hmem
  by_cases hin : 0 ≤ p.1 ∧ p.1 < (gridWidth grid : Int) ∧ 0 ≤ p.2 ∧
      p.2 < (gridHeight grid : Int)
  · obtain ⟨h1, h2, h3, h4⟩ := hin
    have hp : p = ((p.1.toNat : Int), (p.2.toNat : Int)) := by
      obtain ⟨px, py⟩ := p
      simp only [Prod.mk.injEq]
      constructor <;> omega
    rw [hp] at hz hmem
    exact hb p.1.toNat (by omega) p.2.toNat (by omega) hz b hmem
  · exfalso
    rw [rect_cellAt_oob hrect p hin] at hz
    simp [oobCell] at hz

/-- A grid with no revealed cell is trivially cascade-closed. -/
theorem cascadeClosed_of_all_unrevealed {grid : Grid}
    (h : ∀ row ∈ grid, ∀ c ∈ row, c.isRevealed = false) : CascadeClosed grid := by
  intro p hz hr b hb
  exfalso
  rcases cellAt_cases grid p with he | ⟨row, hrow, hcell⟩
  · rw [he] at hz
    simp [oobCell] at hz
  · have hf := h row hrow _ hcell
    rw [hf] at hr
    exact Bool.noConfusion hr

/-- C7 (amended): for a game state whose grid is zero-consistent and
cascade-closed (both hold in every state live play can reach), a successful
RevealCell of an unrevealed, non-mined, zero-adjacency cell c terminates (the
model is total; the loop lemmas show its fuel never runs out) and reveals
exactly the previously revealed cells together with the zero-path closure of
c — the connected zero-adjacency region containing c plus its bordering
cells — and no mined cell changes its revealed flag. -/
theorem c7_cascade_reveals_zero_region (g : game) (name : CellName) (c : coordinate)
    (hname : cellNameToCoordinate name = .ok c)
    (hcontains : containsCoordinate g c = true)
    (hunrev : (cellAt g.grid c).isRevealed = false)
    (hunmined : (cellAt g.grid c).isMined = false)
    (hzero : (cellAt g.grid c).adjacentMines = 0)
    (hcons : ZeroConsistent g.grid)
    (hclosed : CascadeClosed g.grid) :
    ∃ g2, RevealCell g name = .ok g2 ∧
      (∀ p : coordinate, (cellAt g2.grid p).isRevealed = true ↔
        ((cellAt g.grid p).isRevealed = true ∨ ZeroPath g.grid c p)) ∧
      (∀ p : coordinate, (cellAt g.grid p).isMined = true →
        (cellAt g2.grid p).isRevealed = (cellAt g.grid p).isRevealed) := by
  have hB : cellAt (onCellRevealed g c).grid c = markRevealed (cellAt g.grid c) :=
    cellAt_reveal_self hunrev
  have hA : ∀ p : coordinate, p ≠ c →
      cellAt (onCellRevealed g c).grid p = cellAt g.grid p :=
    fun p hp => cellAt_reveal_ne hp
  have hShape : rowLens (onCellRevealed g c).grid = rowLens g.grid := rowLens_reveal g.grid c
  set q0 := getNeighbors c (gridWidth (onCellRevealed g c).grid)
    (gridHeight (onCellRevealed g c).grid) with hq0
  have hq0g : q0 = getNeighbors c (gridWidth g.grid) (gridHeight g.grid) := by
    rw [hq0, gridWidth_eq_of_rowLens hShape, gridHeight_eq_of_rowLens hShape]
  have hentry : CascadeInv g.grid c (onCellRevealed g c) q0 := by
    refine ⟨hShape, ?_, ?_, ?_, ?_, ?_, ?_⟩
    · intro p
      by_cases hpc : p = c
      · subst hpc; rw [hB]; exact ⟨rfl, rfl⟩
      · rw [hA p hpc]; exact ⟨rfl, rfl⟩
    · intro p hp
      by_cases hpc : p = c
      · subst hpc; rw [hB]; rfl
      · rw [hA p hpc]; exact hp
    · rw [hB]; rfl
    · intro p hp
      by_cases hpc : p = c
      · subst hpc; exact Or.inr ZeroPath.refl
      · rw [hA p hpc] at hp; exact Or.inl hp
    · intro q hq
      rw [hq0g] at hq
      exact ZeroPath.step ZeroPath.refl hzero hq
    · intro p hz2 hr2 b hmemb
      have hmembg : b ∈ getNeighbors p (gridWidth g.grid) (gridHeight g.grid) := by
        rw [← gridWidth_eq_of_rowLens hShape, ← gridHeight_eq_of_rowLens hShape]
        exact hmemb
      by_cases hpc : p = c
      · subst hpc
        right; right
        rw [hq0g]
        exact hmembg
      · rw [hA p hpc] at hz2 hr2
        rcases hclosed p hz2 hr2 b hmembg with h1 | h1
        · left
          by_cases hbc : b = c
          · subst hbc; rw [hB]; rfl
          · rw [hA b hbc]; exact h1
        · right; left
          by_cases hbc : b = c
          · subst hbc; rw [hB]; exact h1
          · rw [hA b hbc]; exact h1
  have hm0 : q0.length + 10 * countUnrevealed (onCellRevealed g c).grid <
      loopFuelBound (onCellRevealed g c) q0 := by
    unfold loopFuelBound
    omega
  have hloop := revealLoop_cascadeInv g.grid c name (loopFuelBound (onCellRevealed g c) q0)
    (onCellRevealed g c) q0 [] hm0 hentry
  have hz1 : (cellAt (onCellRevealed g c).grid c).adjacentMines = 0 := by
    rw [hB]; exact hzero
  have hcall : revealNeighborsIfNoAdjacentMines (onCellRevealed g c) c name =
      revealLoop name (loopFuelBound (onCellRevealed g c) q0) (onCellRevealed g c) q0 [] := by
    unfold revealNeighborsIfNoAdjacentMines
    rw [if_neg (by simp [hz1])]
  have hfin : CascadeInv g.grid c
      (revealNeighborsIfNoAdjacentMines (onCellRevealed g c) c name).1 [] := by
    rw [hcall]
    exact hloop
  have hgrid_iff : ∀ p : coordinate,
      (cellAt (revealNeighborsIfNoAdjacentMines (onCellRevealed g c) c name).1.grid p).isRevealed = true ↔
      ((cellAt g.grid p).isRevealed = true ∨ ZeroPath g.grid c p) := by
    intro p
    constructor
    · exact hfin.sound p
    · intro hp
      rcases hp with h1 | h1
      · exact hfin.monoG p h1
      · exact cascadeInv_complete hfin hcons p h1
  have hgrid_mined : ∀ p : coordinate, (cellAt g.grid p).isMined = true →
      (cellAt (revealNeighborsIfNoAdjacentMines (onCellRevealed g c) c name).1.grid p).isRevealed =
      (cellAt g.grid p).isRevealed := by
    intro p hmp
    cases hgp : (cellAt g.grid p).isRevealed with
    | true => exact hfin.monoG p hgp
    | false =>
      cases hfp : (cellAt (revealNeighborsIfNoAdjacentMines (onCellRevealed g c) c name).1.grid p).isRevealed with
      | false => rfl
      | true =>
        exfalso
        rcases hfin.sound p hfp with h1 | h1
        · rw [hgp] at h1
          exact Bool.noConfusion h1
        · have hu := zeroPath_unmined hcons hunmined h1
          rw [hmp] at hu
          exact Bool.noConfusion hu
  rw [revealCell_reduce_safe hname hcontains hunrev hunmined]
  by_cases hwin : (cascadeResult g c name).cellCount ≠
      (cascadeResult g c name).revealedOrFlaggedCellCount
  · rw [if_pos hwin]
    exact ⟨cascadeResult g c name, rfl, hgrid_iff, hgrid_mined⟩
  · rw [if_neg hwin]
    exact ⟨_, rfl, hgrid_iff, hgrid_mined⟩

/-- grid5 really is an output of generateGrid on valid parameters and a
possible random placement. -/
theorem grid5_generated :
    chooseMinePlacementsCan 5 5 1 [(0, 0)] ∧
    generateGrid 5 5 1 [(0, 0)] = .ok grid5 :=
  ⟨by decide, rfl⟩

/-- Counterexample to C7 as stated: in the game state badGame — all cells
zero-adjacency and unmined, the column x = 2 already revealed — the cell
(4,0) belongs to the connected zero region containing (0,0) (witnessed by a
zero-path along row 0) and is not mined, so the claim says revealing A1 must
reveal it; but the cascade stops at the already-revealed column (revealed
cells are skipped and never expanded), and (4,0) stays unrevealed. -/
theorem c7_counterexample_partial_cascade :
    (cellAt badGame.grid (0, 0)).isRevealed = false ∧
    (cellAt badGame.grid (0, 0)).isMined = false ∧
    (cellAt badGame.grid (0, 0)).adjacentMines = 0 ∧
    RevealCell badGame "A1" = .ok badAfter ∧
    ZeroPath badGame.grid (0, 0) (4, 0) ∧
    (cellAt badGame.grid (4, 0)).isMined = false ∧
    (cellAt badGame.grid (4, 0)).isRevealed = false ∧
    (cellAt badAfter.grid (4, 0)).isRevealed = false := by
  refine ⟨by decide, by decide, by decide, rfl, ?_, by decide, by decide, by decide⟩
  have s1 : ZeroPath badGame.grid (0, 0) (1, 0) :=
    ZeroPath.step ZeroPath.refl (by decide) (by decide)
  have s2 : ZeroPath badGame.grid (0, 0) (2, 0) :=
    ZeroPath.step s1 (by decide) (by decide)
  have s3 : ZeroPath badGame.grid (0, 0) (3, 0) :=
    ZeroPath.step s2 (by decide) (by decide)
  exact ZeroPath.step s3 (by decide) (by decide)

/-- Witness for the amended C7 at a concrete input: revealing the
zero-adjacency corner E5 of the fresh 5×5 one-mine game. -/
theorem c7_witness :
    ∃ g2, RevealCell demo5 "E5" = .ok g2 ∧
      (∀ p : coordinate, (cellAt g2.grid p).isRevealed = true ↔
        ((cellAt demo5.grid p).isRevealed = true ∨ ZeroPath demo5.grid (4, 4) p)) ∧
      (∀ p : coordinate, (cellAt demo5.grid p).isMined = true →
        (cellAt g2.grid p).isRevealed = (cellAt demo5.grid p).isRevealed) :=
  c7_cascade_reveals_zero_region demo5 "E5" (4, 4) rfl (by decide) (by decide)
    (by decide) (by decide)
    (zeroConsistent_of_bounded (by decide) (by decide))
    (cascadeClosed_of_all_unrevealed (by decide))

/-- demoGrid really is an output of generateGrid on valid parameters and a
possible random placement, so demoGame is a game NewGame can produce. -/
theorem demoGrid_generated :
    chooseMinePlacementsCan 2 2 1 [(0, 0)] ∧
    generateGrid 2 2 1 [(0, 0)] = .ok demoGrid :=
  ⟨by decide, rfl⟩

/-- C1 (event-sourcing round-trip): REFUTED ON THE CODE.  RevealCell applies
the initial cellRevealedEvent but never appends it to the log (game.go lines
110-141 append only the loss, cascade and win events), so after NewGame
(2×2, one mine at (0,0)) followed by one successful RevealCell of the safe
cell B1, the log still holds only the gameStartedEvent, and replaying it from
the empty aggregate yields a state with no revealed cells — not the live
state, whose counter is 1 and whose cell (1,0) is revealed. -/
theorem c1_replay_misses_reveal :
    RevealCell demoGame "B1" = .ok demoRevealB1 ∧
    demoRevealB1.revealedOrFlaggedCellCount = 1 ∧
    (cellAt demoRevealB1.grid (1, 0)).isRevealed = true ∧
    demoRevealB1.events = [event.gameStartedEvent demoGame.id 1 demoGrid] ∧
    (replayEvents demoRevealB1.events).revealedOrFlaggedCellCount = 0 ∧
    (replayEvents demoRevealB1.events).grid ≠ demoRevealB1.grid := by
  refine ⟨rfl, rfl, rfl, rfl, rfl, ?_⟩
  decide

/-- C2 (CreateGame succeeds on every valid input and random stream): REFUTED
ON THE CODE.  The matrix built by initEmptyMatrix has height rows of width
cells, but the placement loop indexes it matrix[c[0]][c[1]] (x as the row
index).  For width 3, height 2, mineCount 1 the random stream can choose the
in-range mine coordinate (2,0), and the write matrix[2][0] is an
index-out-of-range panic instead of a successful return. -/
theorem c2_generateGrid_panics_nonsquare :
    chooseMinePlacementsCan 3 2 1 [(2, 0)] ∧
    generateGrid 3 2 1 [(2, 0)] = .outOfRange :=
  ⟨by decide, rfl⟩

/-- C3 (reaching cellCount triggers a GameWon event whose application sets
isEnded): REFUTED ON THE CODE.  The first conjunct evaluates the code of
gameWonEvent.applyTo (game.go lines 422-424): its body is empty — onGameWon
is never called — so applying a gameWonEvent changes nothing.  On a state one
safe cell short of the win condition, revealing that cell does apply and
append a GameWon event, but isEnded remains false. -/
theorem c3_gameWon_applied_without_ending :
    (∀ (g : game) (id : String) (v : Nat), (event.gameWonEvent id v).applyTo g = g) ∧
    RevealCell c3Game "B2" = .ok c3After ∧
    c3After.revealedOrFlaggedCellCount = c3Game.cellCount ∧
    c3After.events = c3Game.events ++ [event.gameWonEvent "cg" 2] ∧
    c3After.isEnded = false :=
  ⟨fun g id v => rfl, rfl, rfl, rfl, rfl⟩

/-- C4 (version is incremented by exactly 1 per applied event): REFUTED ON
THE CODE.  onGameStarted sets version to 1, but no other apply handler
touches g.version (onCellRevealed, game.go lines 144-148, only flips the cell
and the counter), so after NewGame plus one successful reveal — two applied
events — the version is still 1, not 2. -/
theorem c4_version_stays_one :
    RevealCell demoGame "B1" = .ok demoRevealB1 ∧
    demoGame.version = 1 ∧
    demoRevealB1.events.length + 1 = 2 ∧
    demoRevealB1.version = 1 :=
  ⟨rfl, rfl, rfl, rfl⟩

/-- C5 (cellNameToCoordinate errors exactly on strings not matching
^[A-Za-z]+[0-9]+$): REFUTED ON THE CODE.  The source regexp ([A-z]+)([0-9]+)
(game.go line 15) is unanchored and its class [A-z] also contains the six
ASCII characters between Z and a, so the non-matching strings "_1" and "A1B2"
are both decoded successfully instead of being rejected. -/
theorem c5_cellname_pattern_mismatch :
    specCellNameMatch "_1" = false ∧
    cellNameToCoordinate "_1" = .ok (30, 0) ∧
    specCellNameMatch "A1B2" = false ∧
    cellNameToCoordinate "A1B2" = .ok (0, 0) :=
  ⟨rfl, rfl, rfl, rfl⟩

/-- C9: once a terminal event (GameWon or GameLost) has been applied and
appended to a reachable game's log, every RevealCell call returns an error
(and, the model being functional, produces no new state: nothing changes and
nothing is appended).  The reason in this code is not an isEnded guard —
RevealCell has none — but that a terminal event is only ever recorded with
every cell revealed (a loss force-reveals the grid; a win requires the
counter, equal to the number of revealed cells, to reach cellCount), so every
target fails validation. -/
theorem c9_terminal_rejects_moves (g : game) (h : Reachable g)
    (hterm : HasTerminalEvent g) (name : CellName) :
    ∃ msg, RevealCell g name = .error msg := by
  have inv := reachable_inv h
  have hall := allRevealed_pointwise (inv.terminal_all hterm)
  cases hn : cellNameToCoordinate name with
  | error msg => exact ⟨msg, revealCell_error_name hn⟩
  | ok c =>
    cases hcont : containsCoordinate g c with
    | false => exact ⟨"invalid cell", revealCell_error_oob hn hcont⟩
    | true => exact ⟨"cell already revealed", revealCell_error_revealed hn hcont (hall c)⟩

/-- Witness for C9 at a concrete input: the lost 2×2 game (reached by
NewGame then revealing the mine) rejects the move B1. -/
theorem c9_witness : ∃ msg, RevealCell lostGame "B1" = .error msg :=
  c9_terminal_rejects_moves lostGame
    (Reachable.step demoGame "A1" lostGame
      (Reachable.start 2 2 1 [(0, 0)] "00000000-0000-4000-8000-000000000000" demoGrid
        (by decide) rfl)
      rfl)
    (by decide) "B1"

/-- C10: in every reachable game no cell is flagged (and FlagCell is the
identity), the revealedOrFlaggedCellCount equals the number of cells whose
isRevealed flag is true, and in particular the counter never exceeds
cellCount. -/
theorem c10_no_flags_counter_matches_reveals (g : game) (h : Reachable g) :
    NoFlags g.grid ∧ FlagCell g = g ∧
    g.revealedOrFlaggedCellCount = revealedCount g.grid ∧
    g.revealedOrFlaggedCellCount ≤ g.cellCount := by
  have inv := reachable_inv h
  refine ⟨inv.noFlags, rfl, inv.count_eq, ?_⟩
  rw [inv.count_eq, inv.cellCount_eq]
  exact revealedCount_le_totalCount _

/-- Witness for C10 at a concrete input: the freshly created 2×2 game. -/
theorem c10_witness :
    NoFlags demoGame.grid ∧ FlagCell demoGame = demoGame ∧
    demoGame.revealedOrFlaggedCellCount = revealedCount demoGame.grid ∧
    demoGame.revealedOrFlaggedCellCount ≤ demoGame.cellCount :=
  c10_no_flags_counter_matches_reveals demoGame
    (Reachable.start 2 2 1 [(0, 0)] "00000000-0000-4000-8000-000000000000" demoGrid
      (by decide) rfl)

/-- Witness for C6 at a concrete input: revealing the mined cell A1 of the
fresh 2×2 game. -/
theorem c6_witness :
    ∃ g2, RevealCell demoGame "A1" = .ok g2 ∧
      g2.isEnded = true ∧
      AllRevealed g2.grid ∧
      g2.revealedOrFlaggedCellCount = g2.cellCount ∧
      g2.events = demoGame.events ++
        [event.gameLostEvent demoGame.id (demoGame.version + 1)] :=
  c6_reveal_mine_loses demoGame "A1" (0, 0) rfl (by decide) (by decide) (by decide)
    (by decide) (by decide) (by decide)

/-- Witness for C8 at a concrete input: the malformed name "9Z" is rejected. -/
theorem c8_witness : ∃ msg, RevealCell demoGame "9Z" = .error msg :=
  c8_validation_rejects demoGame "9Z" (Or.inl ⟨"invalid cell name", rfl⟩)

end Mineswept
